import Mathlib

/-!
Verification of the marker-based judgment segmentation and reconstruction
engine (`parse-judgment.py`, class `JudgmentParser`).

Documents are modelled as `List Char` (Python `str`), line lists as
`List (List Char)` (the result of `str.split('\n')`).  The regular
expressions built by `_create_pattern` have a fixed shape, so their
backtracking-match semantics is embedded directly as executable matchers:

* for an ordinary flag the built regex is
  `^\s*c1\s*c2...\s*cn\s*[：:︰]?\s*$`, applied with `re.match` to
  `line.strip()`;
* for the date flag `中華民國年月日` it is
  `^\s*中\s*華\s*民\s*國.*?年.*?月.*?日\s*$`.

Because the flag characters are neither whitespace nor separators, the
greedy whitespace consumption below is equivalent to the regex's
backtracking search; for the date pattern the `.*?` fillers get genuine
existential (first-match-irrelevant) semantics via `dateTailYear` /
`dateTailMonth` / `dateTailDay`, where a filler character may be anything
except `'\n'` (Python's `.`).
-/

/-- Characters treated as whitespace both by Python's `str.strip()` and by
`\s` in a unicode `re` pattern (`Py_UNICODE_ISSPACE`). -/
def isWs (c : Char) : Bool :=
  c = ' ' || c = '\t' || c = '\n' || c = '\r' || c = '\x0b' || c = '\x0c' ||
  c = '\x1c' || c = '\x1d' || c = '\x1e' || c = '\x1f' || c = '\x85' ||
  c = '\u00A0' || c = '\u1680' || ('\u2000' ≤ c && c ≤ '\u200A') ||
  c = '\u2028' || c = '\u2029' || c = '\u202F' || c = '\u205F' || c = '\u3000'

/-- The separator characters admitted after a flag: `[：:︰]`. -/
def isSep (c : Char) : Bool :=
  c = '：' || c = ':' || c = '︰'

/-- Python `str.lstrip()` on a list of characters. -/
def dropWs (cs : List Char) : List Char := cs.dropWhile isWs

/-- Python `str.strip()`: remove leading and trailing whitespace. -/
def strip (cs : List Char) : List Char :=
  ((cs.dropWhile isWs).reverse.dropWhile isWs).reverse

/-- Python `str.split('\n')`; always returns at least one (possibly empty)
line, and no line contains `'\n'`. -/
def splitOnNl : List Char → List (List Char)
  | [] => [[]]
  | c :: rest =>
    if c = '\n' then [] :: splitOnNl rest
    else
      match splitOnNl rest with
      | [] => [[c]]
      | l :: ls => (c :: l) :: ls

/-- Python `'\n'.join(...)`. -/
def joinNl : List (List Char) → List Char
  | [] => []
  | [l] => l
  | l :: rest => l ++ '\n' :: joinNl rest

/-- Python slice `xs[a:b]`. -/
def pySlice (xs : List α) (a b : Nat) : List α := (xs.drop a).take (b - a)

/-- Matcher for the regex fragment `\s*c1\s*c2...\s*cn` (with a leading
`\s*` also before the first character): on success returns the unconsumed
remainder of the input.  Since every flag character is non-whitespace the
greedy `dropWs` is equivalent to the regex's backtracking choice. -/
def matchSeq : List Char → List Char → Option (List Char)
  | [], cs => some cs
  | f :: fs, cs =>
    match dropWs cs with
    | [] => none
    | c :: rest => if c = f then matchSeq fs rest else none

/-- Matcher for the tail fragment `\s*[：:︰]?\s*$` of an ordinary flag's
pattern: optional whitespace, at most one separator, trailing whitespace,
end of line. -/
def sepTail (rest : List Char) : Bool :=
  match dropWs rest with
  | [] => true
  | c :: rest2 => isSep c && (dropWs rest2).isEmpty

/-- Matcher for the whole pattern `^\s*c1\s*...\s*cn\s*[：:︰]?\s*$` built by
`_create_pattern` for an ordinary (non-date) flag. -/
def flagMatch (flag : List Char) (cs : List Char) : Bool :=
  match matchSeq flag cs with
  | none => false
  | some rest => sepTail rest

/-- Matcher for `.*?日\s*$`: some `'日'` in the input is followed by
whitespace only; filler characters may be anything but `'\n'`. -/
def dateTailDay : List Char → Bool
  | [] => false
  | c :: rest => (c == '日' && rest.all isWs) || (c != '\n' && dateTailDay rest)

/-- Matcher for `.*?月.*?日\s*$`. -/
def dateTailMonth : List Char → Bool
  | [] => false
  | c :: rest => (c == '月' && dateTailDay rest) || (c != '\n' && dateTailMonth rest)

/-- Matcher for `.*?年.*?月.*?日\s*$`. -/
def dateTailYear : List Char → Bool
  | [] => false
  | c :: rest => (c == '年' && dateTailMonth rest) || (c != '\n' && dateTailYear rest)

/-- Matcher for the compound date pattern
`^\s*中\s*華\s*民\s*國.*?年.*?月.*?日\s*$` built by `_create_pattern`
for the flag `中華民國年月日`. -/
def dateMatch (cs : List Char) : Bool :=
  match matchSeq "中華民國".data cs with
  | none => false
  | some rest => dateTailYear rest

/-- The date flag `中華民國年月日`. -/
def datePat : List Char := "中華民國年月日".data

/-- The operative-holding flag `主文`. -/
def mainPat : List Char := "主文".data

/-- The facts flag `事實`. -/
def factPat : List Char := "事實".data

/-- The reasoning flag `理由`. -/
def reasonPat : List Char := "理由".data

/-- `re.match(self._create_pattern(flag), line.strip())` as a whole-line
test: the dispatch in `_create_pattern` plus the per-line stripping done in
`_find_pattern_positions`. -/
def lineMatches (flag : List Char) (line : List Char) : Bool :=
  if flag = datePat then dateMatch (strip line) else flagMatch flag (strip line)

/-- `special_four_part_pattern` from `JudgmentParser.__init__`. -/
def special_four_part_pattern : List (List Char) :=
  [datePat, mainPat, factPat, reasonPat]

/-- `supported_patterns` from `JudgmentParser.__init__`, in declared order. -/
def supported_patterns : List (List (List Char)) :=
  [[datePat, mainPat, "事實及理由".data],
   [datePat, mainPat, "事實及理由要領".data],
   [datePat, mainPat, "理由要領".data],
   [datePat, mainPat, reasonPat],
   [datePat, mainPat, "判決事實及理由要領".data],
   [datePat, mainPat, "訴訟標的及理由要領".data],
   [datePat, mainPat, "爭執事項及理由要領".data],
   [datePat, mainPat, factPat],
   [datePat, mainPat, "事實與理由".data]]

/-- The per-flag loop of `_find_pattern_positions`: index of the first line
whose stripped content fully matches the flag's pattern (`break` after the
first hit), `none` when no line matches. -/
def findPos : List (List Char) → List Char → Option Nat
  | [], _ => none
  | l :: rest, flag =>
    if lineMatches flag l then some 0 else (findPos rest flag).map (· + 1)

/-- The result dictionary of `parse_judgment`.  `fact`, `reason` and
`factAndReason` are `Option`s because the corresponding dictionary keys are
only present for some outcomes; `Option.getD` models `dict.get(key, '')`,
`Option.isSome` on `error` models `'error' in parsed_result`. -/
structure ParseResult where
  preInfo : List Char
  main : List Char
  fact : Option (List Char)
  reason : Option (List Char)
  factAndReason : Option (List Char)
  postInfo : List Char
  pattern : Option (List (List Char))
  error : Option (List Char)
deriving DecidableEq

/-- The error value `'Invalid input text'`. -/
def invalidMsg : List Char := "Invalid input text".data

/-- The error value `'No matching pattern found'`. -/
def noMatchMsg : List Char := "No matching pattern found".data

/-- The dictionary returned by `parse_judgment` for unusable input. -/
def invalidInputResult : ParseResult :=
  { preInfo := [], main := [], fact := none, reason := none,
    factAndReason := some [], postInfo := [], pattern := none,
    error := some invalidMsg }

/-- The dictionary returned by `parse_judgment` when no pattern matched:
`Post-Information` carries the whole original text verbatim. -/
def noMatchResult (jfull_text : List Char) : ParseResult :=
  { preInfo := [], main := [], fact := none, reason := none,
    factAndReason := some [], postInfo := jfull_text, pattern := none,
    error := some noMatchMsg }

/-- The dictionary built in the four-part branch of `parse_judgment` from
the validated marker positions (slices `lines[:main_pos]`,
`lines[main_pos+1:fact_pos]`, `lines[fact_pos+1:reason_pos]`,
`lines[reason_pos+1:date_pos]`, `lines[date_pos+1:]`). -/
def fourPartResult (lines : List (List Char))
    (main_pos fact_pos reason_pos date_pos : Nat) : ParseResult :=
  { preInfo := strip (joinNl (pySlice lines 0 main_pos)),
    main := strip (joinNl (pySlice lines (main_pos + 1) fact_pos)),
    fact := some (strip (joinNl (pySlice lines (fact_pos + 1) reason_pos))),
    reason := some (strip (joinNl (pySlice lines (reason_pos + 1) date_pos))),
    factAndReason := none,
    postInfo := strip (joinNl (lines.drop (date_pos + 1))),
    pattern := some special_four_part_pattern,
    error := none }

/-- The dictionary built in the three-part branch of `parse_judgment`. -/
def threePartResult (lines : List (List Char))
    (main_pos fr_pos date_pos : Nat) (pattern_flags : List (List Char)) :
    ParseResult :=
  { preInfo := strip (joinNl (pySlice lines 0 main_pos)),
    main := strip (joinNl (pySlice lines (main_pos + 1) fr_pos)),
    fact := none,
    reason := none,
    factAndReason := some (strip (joinNl (pySlice lines (fr_pos + 1) date_pos))),
    postInfo := strip (joinNl (lines.drop (date_pos + 1))),
    pattern := some pattern_flags,
    error := none }

/-- One iteration of the `for pattern_flags in self.supported_patterns`
loop of `parse_judgment`: locate the template's three markers, require all
three present (`all(flag in positions ...)`) with
`main_pos < fr_pos < date_pos`, and return the validated positions.  Every
pattern in `supported_patterns` has the shape
`[date flag, 主文, combined label]`, so the source's dictionary lookups
`positions['中華民國年月日']`, `positions['主文']`,
`positions[pattern_flags[2]]` are exactly the three `findPos` calls on the
destructured entries. -/
def tryOne (lines : List (List Char)) :
    List (List Char) → Option (Nat × Nat × Nat)
  | [dFlag, mFlag, xFlag] =>
    match findPos lines dFlag, findPos lines mFlag, findPos lines xFlag with
    | some date_pos, some main_pos, some fr_pos =>
      if main_pos < fr_pos ∧ fr_pos < date_pos then
        some (main_pos, fr_pos, date_pos)
      else none
    | _, _, _ => none
  | _ => none

/-- The `for pattern_flags in self.supported_patterns` loop of
`parse_judgment`: return the three-part result of the first template that
validates, else fall through to the no-match result. -/
def tryPatterns (jfull_text : List Char) (lines : List (List Char)) :
    List (List (List Char)) → ParseResult
  | [] => noMatchResult jfull_text
  | pattern_flags :: rest =>
    match tryOne lines pattern_flags with
    | some (main_pos, fr_pos, date_pos) =>
      threePartResult lines main_pos fr_pos date_pos pattern_flags
    | none => tryPatterns jfull_text lines rest

/-- Body of `parse_judgment` for usable text: the four-part check first,
then the three-part loop. -/
def parseText (jfull_text : List Char) (lines : List (List Char)) : ParseResult :=
  match findPos lines datePat, findPos lines mainPat,
        findPos lines factPat, findPos lines reasonPat with
  | some date_pos, some main_pos, some fact_pos, some reason_pos =>
    if main_pos < fact_pos ∧ fact_pos < reason_pos ∧ reason_pos < date_pos then
      fourPartResult lines main_pos fact_pos reason_pos date_pos
    else tryPatterns jfull_text lines supported_patterns
  | _, _, _, _ => tryPatterns jfull_text lines supported_patterns

/-- Input of `parse_judgment`: `nonText` stands for `None` or any
non-string value, `text s` for a Python string. -/
inductive JInput where
  | nonText : JInput
  | text : List Char → JInput
deriving DecidableEq

/-- The guard `not jfull_text or not isinstance(jfull_text, str)`:
a non-string, or the (only falsy) empty string. -/
def JInput.usable : JInput → Bool
  | JInput.nonText => false
  | JInput.text s => !s.isEmpty

/-- `JudgmentParser.parse_judgment`. -/
def parse_judgment : JInput → ParseResult
  | JInput.nonText => invalidInputResult
  | JInput.text s =>
    if s.isEmpty then invalidInputResult
    else parseText s (splitOnNl s)

/-- Truthiness test used in `reconstruct_judgment`: `if pre_info:` etc. -/
def optPart (x : List Char) : List (List Char) :=
  if x.isEmpty then [] else [x]

/-- `JudgmentParser.reconstruct_judgment` on a structured record (the
non-`dict` input case returns `""` and is outside this record type).
`pattern.getD i []` is Python's `pattern[i]`, total because the branch
guard guarantees `len(pattern) == 3`. -/
def reconstruct_judgment (components : ParseResult) : List Char :=
  match components.pattern with
  | none => []
  | some pattern =>
    if pattern.isEmpty then [] else
    if pattern = special_four_part_pattern then
      joinNl (optPart (strip components.preInfo) ++
        [mainPat] ++ optPart (strip components.main) ++
        [factPat] ++ optPart (strip (components.fact.getD [])) ++
        [reasonPat] ++ optPart (strip (components.reason.getD [])) ++
        [datePat] ++ optPart (strip components.postInfo))
    else if pattern.length = 3 then
      joinNl (optPart (strip components.preInfo) ++
        [pattern.getD 1 []] ++ optPart (strip components.main) ++
        [pattern.getD 2 []] ++ optPart (strip (components.factAndReason.getD [])) ++
        [pattern.getD 0 []] ++ optPart (strip components.postInfo))
    else
      joinNl (optPart (strip components.preInfo) ++
        optPart (strip components.postInfo))

/-- `JudgmentParser._is_parse_result_valid`.  `not parsed_result.get('pattern')`
is true for a missing pattern and for an empty pattern list. -/
def is_parse_result_valid (parsed_result : ParseResult) : Bool :=
  if parsed_result.error.isSome ||
      (match parsed_result.pattern with
       | none => true
       | some p => p.isEmpty) then false
  else if (strip parsed_result.main).isEmpty then false
  else if parsed_result.pattern = some special_four_part_pattern then
    !(strip (parsed_result.fact.getD [])).isEmpty &&
    !(strip (parsed_result.reason.getD [])).isEmpty
  else
    !(strip (parsed_result.factAndReason.getD [])).isEmpty

/-- Size of the batch assigned to worker `i` in
`process_directory_multithreaded`:
`files_per_thread + (1 if i < remainder else 0)`. -/
def sizeAt (q r i : Nat) : Nat := q + (if i < r then 1 else 0)

/-- The `for i in range(max_threads)` sharding loop of
`process_directory_multithreaded`: `count` iterations remain, the current
index is `i` and the cursor is `start`; a batch is appended only when its
size is positive. -/
def fileBatchesGo (files : List α) (q r : Nat) :
    Nat → Nat → Nat → List (List α)
  | _, _, 0 => []
  | i, start, count + 1 =>
    let bs := sizeAt q r i
    if 0 < bs then
      pySlice files start (start + bs) ::
        fileBatchesGo files q r (i + 1) (start + bs) count
    else fileBatchesGo files q r (i + 1) start count

/-- The sharding step of `process_directory_multithreaded`: distribute
`files` over `max_threads` workers. -/
def fileBatches (files : List α) (max_threads : Nat) : List (List α) :=
  fileBatchesGo files (files.length / max_threads) (files.length % max_threads)
    0 0 max_threads

/-! ### Basic lemmas about whitespace handling, split and join -/

theorem strip_nil : strip [] = [] := rfl

theorem mem_of_mem_strip {c : Char} {s : List Char} (h : c ∈ strip s) : c ∈ s := by
  unfold strip at h
  rw [List.mem_reverse] at h
  have h2 := (List.dropWhile_sublist (p := isWs)
    (l := (s.dropWhile isWs).reverse)).mem h
  rw [List.mem_reverse] at h2
  exact (List.dropWhile_sublist (p := isWs) (l := s)).mem h2

theorem dropWs_eq_self_of_strip_eq_self {s : List Char} (h : strip s = s) :
    dropWs s = s := by
  by_contra hne
  have hsub : List.Sublist (s.dropWhile isWs) s := List.dropWhile_sublist isWs
  have hlt : (s.dropWhile isWs).length < s.length := by
    rcases Nat.lt_or_ge (s.dropWhile isWs).length s.length with h1 | h1
    · exact h1
    · exact absurd (hsub.eq_of_length (Nat.le_antisymm hsub.length_le h1)) hne
  have hlen : (strip s).length ≤ (s.dropWhile isWs).length := by
    unfold strip
    rw [List.length_reverse]
    calc ((s.dropWhile isWs).reverse.dropWhile isWs).length
        ≤ (s.dropWhile isWs).reverse.length :=
          (List.dropWhile_sublist isWs).length_le
      _ = (s.dropWhile isWs).length := List.length_reverse _
  rw [h] at hlen
  omega

theorem takeWhile_ws_eq_nil_of_dropWs_eq_self {s : List Char} (h : dropWs s = s) :
    s.takeWhile isWs = [] := by
  have := List.takeWhile_append_dropWhile (p := isWs) (l := s)
  unfold dropWs at h
  rw [h] at this
  have hlen := congrArg List.length this
  simp only [List.length_append] at hlen
  exact List.eq_nil_of_length_eq_zero (by omega)

theorem dropWs_append_ws {ws cs : List Char} (h : ∀ w ∈ ws, isWs w = true) :
    dropWs (ws ++ cs) = dropWs cs := by
  induction ws with
  | nil => rfl
  | cons w ws ih =>
    have hw : isWs w = true := h w (List.mem_cons_self _ _)
    simp only [List.cons_append]
    unfold dropWs
    rw [List.dropWhile_cons_of_pos hw]
    exact ih (fun x hx => h x (List.mem_cons_of_mem _ hx))

theorem dropWs_cons_of_neg {c : Char} {cs : List Char} (h : isWs c = false) :
    dropWs (c :: cs) = c :: cs := by
  unfold dropWs
  rw [List.dropWhile_cons_of_neg (by simp [h])]

theorem dropWs_eq_nil_iff {cs : List Char} :
    dropWs cs = [] ↔ ∀ c ∈ cs, isWs c = true := by
  unfold dropWs
  exact List.dropWhile_eq_nil_iff

theorem splitOnNl_ne_nil (s : List Char) : splitOnNl s ≠ [] := by
  induction s with
  | nil => simp [splitOnNl]
  | cons c rest ih =>
    unfold splitOnNl
    by_cases hc : c = '\n'
    · simp [hc]
    · simp only [hc, if_false]
      cases h : splitOnNl rest with
      | nil => simp
      | cons l ls => simp

theorem splitOnNl_nil : splitOnNl [] = [[]] := rfl

theorem splitOnNl_cons_nl (rest : List Char) :
    splitOnNl ('\n' :: rest) = [] :: splitOnNl rest := by
  simp [splitOnNl]


theorem splitOnNl_cons_ne {c : Char} (hc : c ≠ '\n') (rest : List Char)
    {l : List Char} {ls : List (List Char)} (h : splitOnNl rest = l :: ls) :
    splitOnNl (c :: rest) = (c :: l) :: ls := by
  simp only [splitOnNl, if_neg hc, h]

theorem joinNl_nil : joinNl [] = [] := rfl

theorem joinNl_single (l : List Char) : joinNl [l] = l := rfl

theorem joinNl_cons_cons (l l2 : List Char) (rest : List (List Char)) :
    joinNl (l :: l2 :: rest) = l ++ '\n' :: joinNl (l2 :: rest) := rfl

theorem joinNl_splitOnNl (s : List Char) : joinNl (splitOnNl s) = s := by
  induction s with
  | nil => rfl
  | cons c rest ih =>
    by_cases hc : c = '\n'
    · subst hc
      rw [splitOnNl_cons_nl]
      cases h : splitOnNl rest with
      | nil => exact absurd h (splitOnNl_ne_nil rest)
      | cons l ls =>
        rw [h] at ih
        rw [joinNl_cons_cons, List.nil_append, ih]
    · cases h : splitOnNl rest with
      | nil => exact absurd h (splitOnNl_ne_nil rest)
      | cons l ls =>
        rw [splitOnNl_cons_ne hc rest h]
        rw [h] at ih
        cases ls with
        | nil =>
          rw [joinNl_single] at ih ⊢
          rw [ih]
        | cons l2 ls2 =>
          rw [joinNl_cons_cons] at ih ⊢
          rw [List.cons_append, ih]

theorem splitOnNl_append_nl (a b : List Char) :
    splitOnNl (a ++ '\n' :: b) = splitOnNl a ++ splitOnNl b := by
  induction a with
  | nil =>
    rw [List.nil_append, splitOnNl_cons_nl, splitOnNl_nil]
    rfl
  | cons c rest ih =>
    by_cases hc : c = '\n'
    · subst hc
      rw [List.cons_append, splitOnNl_cons_nl, splitOnNl_cons_nl, ih,
        List.cons_append]
    · rw [List.cons_append]
      cases h : splitOnNl rest with
      | nil => exact absurd h (splitOnNl_ne_nil rest)
      | cons l ls =>
        have h2 : splitOnNl (rest ++ '\n' :: b) = l :: (ls ++ splitOnNl b) := by
          rw [ih, h, List.cons_append]
        rw [splitOnNl_cons_ne hc _ h2, splitOnNl_cons_ne hc rest h,
          List.cons_append]

theorem splitOnNl_joinNl (ps : List (List Char)) (h : ps ≠ []) :
    splitOnNl (joinNl ps) = (ps.map splitOnNl).flatten := by
  induction ps with
  | nil => exact absurd rfl h
  | cons p rest ih =>
    cases rest with
    | nil => simp [joinNl]
    | cons p2 rest2 =>
      unfold joinNl
      rw [splitOnNl_append_nl, ih (by simp)]
      simp

theorem mem_joinNl {c : Char} {ls : List (List Char)} (h : c ∈ joinNl ls) :
    c = '\n' ∨ ∃ l ∈ ls, c ∈ l := by
  induction ls with
  | nil => simp [joinNl] at h
  | cons l rest ih =>
    cases rest with
    | nil => exact Or.inr ⟨l, by simp, h⟩
    | cons l2 rest2 =>
      unfold joinNl at h
      rw [List.mem_append] at h
      rcases h with h | h
      · exact Or.inr ⟨l, by simp, h⟩
      · rw [List.mem_cons] at h
        rcases h with h | h
        · exact Or.inl h
        · rcases ih h with h2 | ⟨l3, hl3, hc⟩
          · exact Or.inl h2
          · exact Or.inr ⟨l3, List.mem_cons_of_mem _ hl3, hc⟩

theorem infix_joinNl {l : List Char} {ls : List (List Char)} (h : l ∈ ls) :
    l <:+: joinNl ls := by
  induction ls with
  | nil => simp at h
  | cons x rest ih =>
    cases rest with
    | nil =>
      simp only [List.mem_singleton] at h
      subst h
      exact List.infix_refl l
    | cons y rest2 =>
      rw [List.mem_cons] at h
      rcases h with h | h
      · subst h
        exact (List.prefix_append l ('\n' :: joinNl (y :: rest2))).isInfix
      · exact (ih h).trans
          ((List.suffix_cons '\n' (joinNl (y :: rest2))).isInfix.trans
            (List.suffix_append x ('\n' :: joinNl (y :: rest2))).isInfix)

theorem joinNl_ne_nil {l : List Char} {ls : List (List Char)}
    (hmem : l ∈ ls) (hl : l ≠ []) : joinNl ls ≠ [] := by
  cases ls with
  | nil => simp at hmem
  | cons x rest =>
    cases rest with
    | nil =>
      simp only [List.mem_singleton] at hmem
      subst hmem
      simpa [joinNl] using hl
    | cons y rest2 =>
      unfold joinNl
      simp

/-! ### Lemmas about Python slices -/

theorem pySlice_zero (xs : List α) (b : Nat) : pySlice xs 0 b = xs.take b := by
  unfold pySlice
  rw [List.drop_zero, Nat.sub_zero]

theorem pySlice_append {a b c : Nat} (xs : List α) (hab : a ≤ b) (hbc : b ≤ c) :
    pySlice xs a b ++ pySlice xs b c = pySlice xs a c := by
  unfold pySlice
  have h1 : c - a = (b - a) + (c - b) := by omega
  have h2 : a + (b - a) = b := by omega
  rw [h1, List.take_add, List.drop_drop, h2]

theorem pySlice_infix (A M B : List α) :
    pySlice (A ++ M ++ B) A.length (A.length + M.length) = M := by
  unfold pySlice
  rw [List.append_assoc, List.drop_left, Nat.add_sub_cancel_left, List.take_left]

theorem pySlice_length {xs : List α} {a b : Nat} (hab : a ≤ b)
    (hb : b ≤ xs.length) : (pySlice xs a b).length = b - a := by
  unfold pySlice
  rw [List.length_take, List.length_drop]
  omega

theorem mem_pySlice {xs : List α} {l : α} {a b : Nat} (h : l ∈ pySlice xs a b) :
    ∃ i, a ≤ i ∧ i < b ∧ xs[i]? = some l := by
  unfold pySlice at h
  rw [List.mem_iff_getElem?] at h
  obtain ⟨j, hj⟩ := h
  rw [List.getElem?_take] at hj
  by_cases hlt : j < b - a
  · rw [if_pos hlt, List.getElem?_drop] at hj
    exact ⟨a + j, by omega, by omega, hj⟩
  · rw [if_neg hlt] at hj
    exact absurd hj (by simp)

theorem mem_drop_getElem {xs : List α} {l : α} {a : Nat} (h : l ∈ xs.drop a) :
    ∃ i, a ≤ i ∧ xs[i]? = some l := by
  rw [List.mem_iff_getElem?] at h
  obtain ⟨j, hj⟩ := h
  rw [List.getElem?_drop] at hj
  exact ⟨a + j, by omega, hj⟩

/-! ### Lemmas about the first-match position search -/

theorem findPos_lt_length {lines : List (List Char)} {flag : List Char} {i : Nat}
    (h : findPos lines flag = some i) : i < lines.length := by
  induction lines generalizing i with
  | nil => simp [findPos] at h
  | cons l rest ih =>
    unfold findPos at h
    by_cases hm : lineMatches flag l
    · rw [if_pos hm] at h
      cases h
      simp
    · rw [if_neg hm] at h
      cases hrec : findPos rest flag with
      | none => rw [hrec] at h; simp at h
      | some j =>
        rw [hrec] at h
        simp only [Option.map_some'] at h
        cases h
        have := ih hrec
        simp only [List.length_cons]
        omega

theorem findPos_none_iff {lines : List (List Char)} {flag : List Char} :
    findPos lines flag = none ↔ ∀ l ∈ lines, lineMatches flag l = false := by
  induction lines with
  | nil => simp [findPos]
  | cons l rest ih =>
    unfold findPos
    by_cases hm : lineMatches flag l
    · simp [hm]
    · simp only [if_neg hm, Option.map_eq_none', ih]
      constructor
      · intro h x hx
        rcases List.mem_cons.mp hx with rfl | hx2
        · exact Bool.eq_false_iff.mpr hm
        · exact h x hx2
      · intro h x hx
        exact h x (List.mem_cons_of_mem _ hx)

theorem findPos_cons_match {l : List Char} {rest : List (List Char)}
    {flag : List Char} (h : lineMatches flag l = true) :
    findPos (l :: rest) flag = some 0 := by
  unfold findPos
  rw [if_pos h]

theorem findPos_cons_nomatch {l flag : List Char} {rest : List (List Char)}
    (h : lineMatches flag l = false) :
    findPos (l :: rest) flag = (findPos rest flag).map (· + 1) := by
  simp [findPos, h]

theorem findPos_nil (flag : List Char) : findPos [] flag = none := rfl

theorem findPos_append_none {A B : List (List Char)} {flag : List Char}
    (h : ∀ l ∈ A, lineMatches flag l = false) :
    findPos (A ++ B) flag = (findPos B flag).map (· + A.length) := by
  induction A with
  | nil => simp
  | cons l rest ih =>
    have hl : lineMatches flag l = false := h l (List.mem_cons_self _ _)
    rw [List.cons_append, findPos_cons_nomatch hl,
      ih (fun x hx => h x (List.mem_cons_of_mem _ hx))]
    cases findPos B flag with
    | none => simp
    | some j =>
      simp only [Option.map_some', Option.some.injEq, List.length_cons]
      omega

/-! ### Lemmas about the three-part template loop -/

theorem tryOne_eq_some {lines : List (List Char)} {q : List (List Char)}
    {mp xp dp : Nat} (h : tryOne lines q = some (mp, xp, dp)) :
    ∃ dFlag mFlag xFlag, q = [dFlag, mFlag, xFlag] ∧
      findPos lines dFlag = some dp ∧ findPos lines mFlag = some mp ∧
      findPos lines xFlag = some xp ∧ mp < xp ∧ xp < dp := by
  match q with
  | [] => simp [tryOne] at h
  | [a] => simp [tryOne] at h
  | [a, b] => simp [tryOne] at h
  | a :: b :: c :: d :: t => simp [tryOne] at h
  | [dFlag, mFlag, xFlag] =>
    refine ⟨dFlag, mFlag, xFlag, rfl, ?_⟩
    simp only [tryOne] at h
    split at h
    · rename_i date_pos main_pos fr_pos hd hm hx
      split at h
      · rename_i hord
        simp only [Option.some.injEq, Prod.mk.injEq] at h
        obtain ⟨h1, h2, h3⟩ := h
        subst h1; subst h2; subst h3
        exact ⟨hd, hm, hx, hord.1, hord.2⟩
      · simp at h
    · simp at h

theorem tryOne_eq_none_of_missing {lines : List (List Char)}
    {dFlag mFlag xFlag : List Char} (h : findPos lines xFlag = none) :
    tryOne lines [dFlag, mFlag, xFlag] = none := by
  simp only [tryOne]
  split
  · rename_i date_pos main_pos fr_pos _ _ hx
    rw [h] at hx
    cases hx
  · rfl

theorem tryOne_shape_some {lines : List (List Char)} {q : List (List Char)}
    {v : Nat × Nat × Nat} (h : tryOne lines q = some v) :
    ∃ dFlag mFlag xFlag, q = [dFlag, mFlag, xFlag] := by
  obtain ⟨mp, xp, dp⟩ := v
  obtain ⟨d, m, x, hq, _⟩ := tryOne_eq_some h
  exact ⟨d, m, x, hq⟩

theorem tryPatterns_nil (s : List Char) (lines : List (List Char)) :
    tryPatterns s lines [] = noMatchResult s := rfl

theorem tryPatterns_cons_some {s : List Char} {lines : List (List Char)}
    {q : List (List Char)} {rest : List (List (List Char))}
    {mp xp dp : Nat} (h : tryOne lines q = some (mp, xp, dp)) :
    tryPatterns s lines (q :: rest) = threePartResult lines mp xp dp q := by
  simp [tryPatterns, h]

theorem tryPatterns_cons_none {s : List Char} {lines : List (List Char)}
    {q : List (List Char)} {rest : List (List (List Char))}
    (h : tryOne lines q = none) :
    tryPatterns s lines (q :: rest) = tryPatterns s lines rest := by
  simp [tryPatterns, h]

theorem tryPatterns_all_none {s : List Char} {lines : List (List Char)}
    {ps : List (List (List Char))} (h : ∀ q ∈ ps, tryOne lines q = none) :
    tryPatterns s lines ps = noMatchResult s := by
  induction ps with
  | nil => rfl
  | cons q rest ih =>
    rw [tryPatterns_cons_none (h q (List.mem_cons_self _ _))]
    exact ih (fun x hx => h x (List.mem_cons_of_mem _ hx))

theorem tryPatterns_skip_prefix {s : List Char} {lines : List (List Char)}
    {ps1 ps2 : List (List (List Char))}
    (h : ∀ q ∈ ps1, tryOne lines q = none) :
    tryPatterns s lines (ps1 ++ ps2) = tryPatterns s lines ps2 := by
  induction ps1 with
  | nil => rfl
  | cons q rest ih =>
    rw [List.cons_append, tryPatterns_cons_none (h q (List.mem_cons_self _ _))]
    exact ih (fun x hx => h x (List.mem_cons_of_mem _ hx))

theorem tryPatterns_pattern_some {s : List Char} {lines : List (List Char)}
    {ps : List (List (List Char))} {p : List (List Char)}
    (h : (tryPatterns s lines ps).pattern = some p) :
    ∃ dFlag mFlag xFlag main_pos fr_pos date_pos,
      p = [dFlag, mFlag, xFlag] ∧ p ∈ ps ∧
      findPos lines dFlag = some date_pos ∧
      findPos lines mFlag = some main_pos ∧
      findPos lines xFlag = some fr_pos ∧
      main_pos < fr_pos ∧ fr_pos < date_pos ∧
      tryPatterns s lines ps = threePartResult lines main_pos fr_pos date_pos p := by
  induction ps with
  | nil => simp [tryPatterns_nil, noMatchResult] at h
  | cons q rest ih =>
    cases h1 : tryOne lines q with
    | some v =>
      obtain ⟨mp, xp, dp⟩ := v
      rw [tryPatterns_cons_some h1] at h ⊢
      simp only [threePartResult] at h
      cases h
      obtain ⟨d, m, x, hq, hd, hm, hx, h5, h6⟩ := tryOne_eq_some h1
      subst hq
      exact ⟨d, m, x, mp, xp, dp, rfl, List.mem_cons_self _ _, hd, hm, hx, h5, h6, rfl⟩
    | none =>
      rw [tryPatterns_cons_none h1] at h ⊢
      obtain ⟨d, m, x, mp, xp, dp, hp, hmem, rest'⟩ := ih h
      exact ⟨d, m, x, mp, xp, dp, hp, List.mem_cons_of_mem _ hmem, rest'⟩

/-! ### Lemmas about the main dispatch of parse_judgment -/

theorem parseText_four {s : List Char} {lines : List (List Char)}
    {m f r d : Nat}
    (hd : findPos lines datePat = some d)
    (hm : findPos lines mainPat = some m)
    (hf : findPos lines factPat = some f)
    (hr : findPos lines reasonPat = some r)
    (hord : m < f ∧ f < r ∧ r < d) :
    parseText s lines = fourPartResult lines m f r d := by
  unfold parseText
  split
  · rename_i d0 m0 f0 r0 hd0 hm0 hf0 hr0
    have ed : d0 = d := by rw [hd0] at hd; exact Option.some.inj hd
    have em : m0 = m := by rw [hm0] at hm; exact Option.some.inj hm
    have ef : f0 = f := by rw [hf0] at hf; exact Option.some.inj hf
    have er : r0 = r := by rw [hr0] at hr; exact Option.some.inj hr
    subst ed; subst em; subst ef; subst er
    rw [if_pos hord]
  · rename_i hno
    exact (hno d m f r hd hm hf hr).elim

theorem parseText_not_four {s : List Char} {lines : List (List Char)}
    (h : ∀ d m f r, findPos lines datePat = some d →
      findPos lines mainPat = some m → findPos lines factPat = some f →
      findPos lines reasonPat = some r → ¬(m < f ∧ f < r ∧ r < d)) :
    parseText s lines = tryPatterns s lines supported_patterns := by
  unfold parseText
  split
  · rename_i d0 m0 f0 r0 hd0 hm0 hf0 hr0
    rw [if_neg (h d0 m0 f0 r0 hd0 hm0 hf0 hr0)]
  · rfl

theorem parse_judgment_text_eq {s : List Char} (h : s ≠ []) :
    parse_judgment (JInput.text s) = parseText s (splitOnNl s) := by
  simp only [parse_judgment]
  rw [if_neg (by simpa using h)]

/-! ### Claim theorems -/

/-- Claim C1: whenever the four markers `主文`, `事實`, `理由`,
`中華民國年月日` all have first-matching lines whose indices satisfy
`main < fact < reason < date`, `parse_judgment` selects the four-marker
template and returns the four-part result — with no assumption at all
about the three-marker templates, which therefore cannot preempt it even
when one of them would also validate. -/
theorem four_part_priority (s : List Char) (m f r d : Nat)
    (hm : findPos (splitOnNl s) mainPat = some m)
    (hf : findPos (splitOnNl s) factPat = some f)
    (hr : findPos (splitOnNl s) reasonPat = some r)
    (hd : findPos (splitOnNl s) datePat = some d)
    (hmf : m < f) (hfr : f < r) (hrd : r < d) :
    parse_judgment (JInput.text s) = fourPartResult (splitOnNl s) m f r d ∧
    (parse_judgment (JInput.text s)).pattern = some special_four_part_pattern := by
  have hs : s ≠ [] := by
    intro hnil
    subst hnil
    rw [show findPos (splitOnNl []) mainPat = none from by decide] at hm
    cases hm
  have h1 : parse_judgment (JInput.text s) = fourPartResult (splitOnNl s) m f r d := by
    rw [parse_judgment_text_eq hs]
    exact parseText_four hd hm hf hr ⟨hmf, hfr, hrd⟩
  exact ⟨h1, by rw [h1]; rfl⟩

/-- Witness for C1: a document whose four markers sit at lines 0, 2, 4, 7
and which additionally contains the combined label `事實及理由` at line 5,
so the three-marker template `[中華民國年月日, 主文, 事實及理由]` would
also validate (0 < 5 < 7); the four-marker template still wins. -/
theorem four_part_priority_witness :
    parse_judgment
        (JInput.text "主文\nm甲\n事實\nf甲\n理由\n事實及理由\nr甲\n中華民國年月日".data) =
      fourPartResult
        (splitOnNl "主文\nm甲\n事實\nf甲\n理由\n事實及理由\nr甲\n中華民國年月日".data)
        0 2 4 7 ∧
    (parse_judgment
        (JInput.text "主文\nm甲\n事實\nf甲\n理由\n事實及理由\nr甲\n中華民國年月日".data)).pattern =
      some special_four_part_pattern :=
  four_part_priority _ 0 2 4 7 (by decide) (by decide) (by decide) (by decide)
    (by decide) (by decide) (by decide)

theorem tryOne_eq_none_of_not_ord {lines : List (List Char)}
    {dFlag mFlag xFlag : List Char} {dp mp xp : Nat}
    (hd : findPos lines dFlag = some dp) (hm : findPos lines mFlag = some mp)
    (hx : findPos lines xFlag = some xp) (hord : ¬(mp < xp ∧ xp < dp)) :
    tryOne lines [dFlag, mFlag, xFlag] = none := by
  cases h : tryOne lines [dFlag, mFlag, xFlag] with
  | none => rfl
  | some v =>
    obtain ⟨mp2, xp2, dp2⟩ := v
    obtain ⟨d2, m2, x2, hq, hd2, hm2, hx2, h5, h6⟩ := tryOne_eq_some h
    injection hq with e1 hq2
    injection hq2 with e2 hq3
    injection hq3 with e3
    subst e1; subst e2; subst e3
    rw [hd] at hd2; rw [hm] at hm2; rw [hx] at hx2
    cases hd2; cases hm2; cases hx2
    exact absurd ⟨h5, h6⟩ hord

theorem supported_patterns_shape :
    ∀ q ∈ supported_patterns, ∃ x, q = [datePat, mainPat, x] := by
  intro q hq
  simp only [supported_patterns, List.mem_cons, List.not_mem_nil, or_false] at hq
  rcases hq with rfl | rfl | rfl | rfl | rfl | rfl | rfl | rfl | rfl
  all_goals exact ⟨_, rfl⟩

/-- Claim C3: if the four markers are present but the date line comes
before the operative-holding line, and no three-marker template validates,
`parse_judgment` returns the `NoPatternMatch` result whose post-information
is the whole original text verbatim and whose pattern is `None`. -/
theorem date_before_main_no_match (s : List Char) (m f r dd : Nat)
    (hm : findPos (splitOnNl s) mainPat = some m)
    (hf : findPos (splitOnNl s) factPat = some f)
    (hr : findPos (splitOnNl s) reasonPat = some r)
    (hd : findPos (splitOnNl s) datePat = some dd)
    (hdm : dd < m)
    (h3 : ∀ q ∈ supported_patterns, ∀ xp,
      findPos (splitOnNl s) (q.getD 2 []) = some xp → ¬(m < xp ∧ xp < dd)) :
    parse_judgment (JInput.text s) = noMatchResult s ∧
    (parse_judgment (JInput.text s)).postInfo = s ∧
    (parse_judgment (JInput.text s)).pattern = none ∧
    (parse_judgment (JInput.text s)).error = some noMatchMsg := by
  have hs : s ≠ [] := by
    intro hnil
    subst hnil
    rw [show findPos (splitOnNl []) mainPat = none from by decide] at hm
    cases hm
  have h1 : parse_judgment (JInput.text s) = noMatchResult s := by
    rw [parse_judgment_text_eq hs]
    rw [parseText_not_four (fun d1 m1 f1 r1 hd1 hm1 hf1 hr1 => by
      rw [hd] at hd1; rw [hm] at hm1
      cases hd1; cases hm1
      omega)]
    apply tryPatterns_all_none
    intro q hq
    obtain ⟨x, rfl⟩ := supported_patterns_shape q hq
    cases hx : findPos (splitOnNl s) x with
    | none => exact tryOne_eq_none_of_missing hx
    | some xp =>
      refine tryOne_eq_none_of_not_ord hd hm hx ?_
      exact h3 _ hq xp (by simpa using hx)
  refine ⟨h1, ?_, ?_, ?_⟩ <;> rw [h1] <;> rfl

/-- Witness for C3: the four markers appear alone, in the order date,
operative holding, facts, reasoning, so the date line precedes the
operative-holding line and neither the four-marker template nor any
three-marker template validates. -/
theorem date_before_main_no_match_witness :
    parse_judgment (JInput.text "中華民國年月日\n主文\n事實\n理由".data) =
      noMatchResult "中華民國年月日\n主文\n事實\n理由".data ∧
    (parse_judgment (JInput.text "中華民國年月日\n主文\n事實\n理由".data)).postInfo =
      "中華民國年月日\n主文\n事實\n理由".data ∧
    (parse_judgment (JInput.text "中華民國年月日\n主文\n事實\n理由".data)).pattern = none ∧
    (parse_judgment (JInput.text "中華民國年月日\n主文\n事實\n理由".data)).error =
      some noMatchMsg :=
  date_before_main_no_match _ 1 2 3 0 (by decide) (by decide) (by decide)
    (by decide) (by decide) (fun _ _ xp _ => by omega)

/-- Claim C6: on unusable input (a non-string or the empty string, the
only falsy string) `parse_judgment` returns the `InvalidInput` result:
every content field empty, pattern absent, error tag
`'Invalid input text'`; in particular for the empty string the (empty)
post-information equals the original text verbatim. -/
theorem invalid_input_result (inp : JInput) (h : inp.usable = false) :
    parse_judgment inp = invalidInputResult ∧
    (∀ s, inp = JInput.text s → (parse_judgment inp).postInfo = s) := by
  cases inp with
  | nonText =>
    refine ⟨rfl, ?_⟩
    intro s hs
    cases hs
  | text s =>
    have hs : s.isEmpty = true := by
      simp only [JInput.usable, Bool.not_eq_false'] at h
      exact h
    have h1 : parse_judgment (JInput.text s) = invalidInputResult := by
      simp only [parse_judgment]
      rw [if_pos hs]
    refine ⟨h1, ?_⟩
    intro t ht
    injection ht with ht2
    subst ht2
    rw [h1, List.isEmpty_iff.mp hs]
    rfl

/-- Witness for C6: the empty document. -/
theorem invalid_input_result_witness :
    parse_judgment (JInput.text []) = invalidInputResult ∧
    (∀ s, JInput.text [] = JInput.text s →
      (parse_judgment (JInput.text [])).postInfo = s) :=
  invalid_input_result (JInput.text []) (by decide)

/-- Claim C7: `_is_parse_result_valid` accepts a result only when a
template was selected (a non-empty pattern), no error tag is present, and
every structural section of the selected template family — `Main` plus
`Fact` and `Reason` for the four-marker template, `Fact and Reason`
otherwise — is non-empty after trimming. -/
theorem valid_result_sections_nonempty (parsed_result : ParseResult)
    (h : is_parse_result_valid parsed_result = true) :
    (∃ p, parsed_result.pattern = some p ∧ p ≠ []) ∧
    parsed_result.error = none ∧
    strip parsed_result.main ≠ [] ∧
    (parsed_result.pattern = some special_four_part_pattern →
      strip (parsed_result.fact.getD []) ≠ [] ∧
      strip (parsed_result.reason.getD []) ≠ []) ∧
    (parsed_result.pattern ≠ some special_four_part_pattern →
      strip (parsed_result.factAndReason.getD []) ≠ []) := by
  unfold is_parse_result_valid at h
  split at h
  · cases h
  · rename_i hguard
    rw [Bool.or_eq_true, not_or] at hguard
    obtain ⟨herr, hpat⟩ := hguard
    have herr2 : parsed_result.error = none := by
      cases he : parsed_result.error with
      | none => rfl
      | some e => rw [he] at herr; simp at herr
    have hpat2 : ∃ p, parsed_result.pattern = some p ∧ p ≠ [] := by
      cases hp : parsed_result.pattern with
      | none => rw [hp] at hpat; simp at hpat
      | some p =>
        refine ⟨p, rfl, ?_⟩
        rw [hp] at hpat
        simpa using hpat
    split at h
    · cases h
    · rename_i hmain
      have hmain2 : strip parsed_result.main ≠ [] := by
        simpa using hmain
      split at h
      · rename_i hspecial
        rw [Bool.and_eq_true] at h
        refine ⟨hpat2, herr2, hmain2, ?_, ?_⟩
        · intro _
          constructor
          · have := h.1
            simp only [Bool.not_eq_true'] at this
            simpa using this
          · have := h.2
            simp only [Bool.not_eq_true'] at this
            simpa using this
        · intro hcontra
          exact absurd hspecial hcontra
      · rename_i hnotspecial
        refine ⟨hpat2, herr2, hmain2, ?_, ?_⟩
        · intro hcontra
          exact absurd hcontra hnotspecial
        · intro _
          simp only [Bool.not_eq_true'] at h
          simpa using h

/-- Witness for C7: a fully populated four-part result passes the check
and its structural sections are non-empty. -/
theorem valid_result_sections_nonempty_witness :
    (∃ p, (fourPartResult (splitOnNl "主文\n甲\n事實\n乙\n理由\n丙\n中華民國年月日".data)
        0 2 4 6).pattern = some p ∧ p ≠ []) ∧
    (fourPartResult (splitOnNl "主文\n甲\n事實\n乙\n理由\n丙\n中華民國年月日".data)
        0 2 4 6).error = none ∧
    strip (fourPartResult (splitOnNl "主文\n甲\n事實\n乙\n理由\n丙\n中華民國年月日".data)
        0 2 4 6).main ≠ [] ∧
    ((fourPartResult (splitOnNl "主文\n甲\n事實\n乙\n理由\n丙\n中華民國年月日".data)
        0 2 4 6).pattern = some special_four_part_pattern →
      strip ((fourPartResult (splitOnNl "主文\n甲\n事實\n乙\n理由\n丙\n中華民國年月日".data)
        0 2 4 6).fact.getD []) ≠ [] ∧
      strip ((fourPartResult (splitOnNl "主文\n甲\n事實\n乙\n理由\n丙\n中華民國年月日".data)
        0 2 4 6).reason.getD []) ≠ []) ∧
    ((fourPartResult (splitOnNl "主文\n甲\n事實\n乙\n理由\n丙\n中華民國年月日".data)
        0 2 4 6).pattern ≠ some special_four_part_pattern →
      strip ((fourPartResult (splitOnNl "主文\n甲\n事實\n乙\n理由\n丙\n中華民國年月日".data)
        0 2 4 6).factAndReason.getD []) ≠ []) :=
  valid_result_sections_nonempty _ (by decide)

/-- Claim C10: the anchored whole-line rule for `事實` rejects a line whose
trimmed content is a longer label with `事實` as a proper prefix
(`事實及理由`, `事實與理由`); a document all of whose `事實`-candidate
lines are such combined labels records no position for `事實`, and hence
can never select the four-marker template. -/
theorem fact_marker_whole_line (s : List Char)
    (h : ∀ l ∈ splitOnNl s, strip l = "事實及理由".data ∨
      strip l = "事實與理由".data ∨ lineMatches factPat l = false) :
    flagMatch factPat "事實及理由".data = false ∧
    flagMatch factPat "事實與理由".data = false ∧
    findPos (splitOnNl s) factPat = none ∧
    (parse_judgment (JInput.text s)).pattern ≠ some special_four_part_pattern := by
  have hflag1 : flagMatch factPat "事實及理由".data = false := by decide
  have hflag2 : flagMatch factPat "事實與理由".data = false := by decide
  have hnone : findPos (splitOnNl s) factPat = none := by
    rw [findPos_none_iff]
    intro l hl
    rcases h l hl with h1 | h1 | h1
    · show lineMatches factPat l = false
      unfold lineMatches
      rw [if_neg (by decide), h1]
      exact hflag1
    · show lineMatches factPat l = false
      unfold lineMatches
      rw [if_neg (by decide), h1]
      exact hflag2
    · exact h1
  refine ⟨hflag1, hflag2, hnone, ?_⟩
  by_cases hs : s = []
  · subst hs
    intro hcontra
    rw [show parse_judgment (JInput.text []) = invalidInputResult from rfl] at hcontra
    cases hcontra
  · rw [parse_judgment_text_eq hs]
    rw [parseText_not_four (fun d1 m1 f1 r1 hd1 hm1 hf1 hr1 => by
      rw [hnone] at hf1
      cases hf1)]
    intro hcontra
    obtain ⟨dF, mF, xF, mp, xp, dp, hshape, _⟩ := tryPatterns_pattern_some hcontra
    have := congrArg List.length hshape
    simp [special_four_part_pattern] at this

/-- Witness for C10: a document whose only facts-like heading is the
combined label `事實及理由`. -/
theorem fact_marker_whole_line_witness :
    flagMatch factPat "事實及理由".data = false ∧
    flagMatch factPat "事實與理由".data = false ∧
    findPos (splitOnNl "標題\n事實及理由\n內容".data) factPat = none ∧
    (parse_judgment (JInput.text "標題\n事實及理由\n內容".data)).pattern ≠
      some special_four_part_pattern :=
  fact_marker_whole_line _ (by decide)

/-! ### Interval decomposition of the line indices: the ranges determined
by a sorted list of cut points are pairwise disjoint and union to the
whole index interval. -/

/-- Consecutive half-open index intervals determined by a list of cuts. -/
def cutRanges : List Nat → List (Finset Nat)
  | a :: b :: rest => Finset.Ico a b :: cutRanges (b :: rest)
  | _ => []

theorem mem_cutRanges_lb :
    ∀ {cuts : List Nat} {a : Nat}, List.Chain' (· ≤ ·) (a :: cuts) →
      ∀ S ∈ cutRanges (a :: cuts), ∀ i ∈ S, a ≤ i := by
  intro cuts
  induction cuts with
  | nil =>
    intro a _ S hS
    simp [cutRanges] at hS
  | cons b rest ih =>
    intro a hchain S hS i hi
    rw [List.chain'_cons] at hchain
    rcases List.mem_cons.mp hS with rfl | hS2
    · exact (Finset.mem_Ico.mp hi).1
    · exact le_trans hchain.1 (ih hchain.2 S hS2 i hi)

theorem cutRanges_pairwise :
    ∀ {cuts : List Nat}, List.Chain' (· ≤ ·) cuts →
      (cutRanges cuts).Pairwise Disjoint := by
  intro cuts
  induction cuts with
  | nil => intro _; simp [cutRanges]
  | cons a rest ih =>
    intro hchain
    cases rest with
    | nil => simp [cutRanges]
    | cons b rest2 =>
      rw [List.chain'_cons] at hchain
      refine List.Pairwise.cons ?_ (ih hchain.2)
      intro S hS
      rw [Finset.disjoint_left]
      intro i hi hiS
      have h1 : i < b := (Finset.mem_Ico.mp hi).2
      have h2 : b ≤ i := mem_cutRanges_lb hchain.2 S hS i hiS
      omega

theorem chain_le_head_last :
    ∀ {l : List Nat} {b z : Nat}, List.Chain' (· ≤ ·) (b :: (l ++ [z])) → b ≤ z := by
  intro l
  induction l with
  | nil =>
    intro b z h
    rw [List.nil_append, List.chain'_cons] at h
    exact h.1
  | cons c rest ih =>
    intro b z h
    rw [List.cons_append, List.chain'_cons] at h
    exact le_trans h.1 (ih h.2)

theorem cutRanges_union :
    ∀ {cuts : List Nat} {a z : Nat},
      List.Chain' (· ≤ ·) (a :: (cuts ++ [z])) →
      (cutRanges (a :: (cuts ++ [z]))).foldr (· ∪ ·) ∅ = Finset.Ico a z := by
  intro cuts
  induction cuts with
  | nil =>
    intro a z _
    simp [cutRanges]
  | cons b rest ih =>
    intro a z hchain
    have hchain2 : List.Chain' (· ≤ ·) (a :: b :: (rest ++ [z])) := by
      simpa using hchain
    rw [List.chain'_cons] at hchain2
    have hbz : b ≤ z := chain_le_head_last hchain2.2
    show (cutRanges (a :: b :: (rest ++ [z]))).foldr (· ∪ ·) ∅ = Finset.Ico a z
    rw [show cutRanges (a :: b :: (rest ++ [z])) =
        Finset.Ico a b :: cutRanges (b :: (rest ++ [z])) from rfl,
      List.foldr_cons, ih hchain2.2]
    exact Finset.Ico_union_Ico_eq_Ico hchain2.1 hbz

theorem parseText_cases (s : List Char) (lines : List (List Char)) :
    (∃ m f r d, findPos lines datePat = some d ∧
      findPos lines mainPat = some m ∧ findPos lines factPat = some f ∧
      findPos lines reasonPat = some r ∧ (m < f ∧ f < r ∧ r < d) ∧
      parseText s lines = fourPartResult lines m f r d) ∨
    parseText s lines = tryPatterns s lines supported_patterns := by
  unfold parseText
  split
  · rename_i d0 m0 f0 r0 hd0 hm0 hf0 hr0
    by_cases hord : m0 < f0 ∧ f0 < r0 ∧ r0 < d0
    · exact Or.inl ⟨m0, f0, r0, d0, hd0, hm0, hf0, hr0, hord, if_pos hord⟩
    · exact Or.inr (if_neg hord)
  · exact Or.inr rfl

theorem cutRanges_partition_of_chain {cuts : List Nat} {z : Nat}
    (hchain : List.Chain' (· ≤ ·) ((0 : Nat) :: (cuts ++ [z]))) :
    (cutRanges ((0 : Nat) :: (cuts ++ [z]))).Pairwise Disjoint ∧
    (cutRanges ((0 : Nat) :: (cuts ++ [z]))).foldr (· ∪ ·) ∅ = Finset.range z := by
  refine ⟨cutRanges_pairwise hchain, ?_⟩
  rw [cutRanges_union hchain, Finset.range_eq_Ico]

/-- Claim C2: whenever `parse_judgment` selects a template, the selected
markers' first-match line indices are strictly increasing in template
order, every section is the (trimmed, newline-joined) run of lines
strictly between two marker lines (or before the first / after the last),
and the section index ranges together with the marker singletons are
pairwise disjoint and cover every line index of the document exactly
once. -/
theorem selected_template_partition (s : List Char) (p : List (List Char))
    (h : (parse_judgment (JInput.text s)).pattern = some p) :
    (∃ m f r d,
      p = special_four_part_pattern ∧
      findPos (splitOnNl s) mainPat = some m ∧
      findPos (splitOnNl s) factPat = some f ∧
      findPos (splitOnNl s) reasonPat = some r ∧
      findPos (splitOnNl s) datePat = some d ∧
      m < f ∧ f < r ∧ r < d ∧ d < (splitOnNl s).length ∧
      parse_judgment (JInput.text s) = fourPartResult (splitOnNl s) m f r d ∧
      (cutRanges [0, m, m + 1, f, f + 1, r, r + 1, d, d + 1,
        (splitOnNl s).length]).Pairwise Disjoint ∧
      (cutRanges [0, m, m + 1, f, f + 1, r, r + 1, d, d + 1,
        (splitOnNl s).length]).foldr (· ∪ ·) ∅ =
        Finset.range (splitOnNl s).length) ∨
    (∃ m x d xFlag,
      p = [datePat, mainPat, xFlag] ∧ p ∈ supported_patterns ∧
      findPos (splitOnNl s) mainPat = some m ∧
      findPos (splitOnNl s) xFlag = some x ∧
      findPos (splitOnNl s) datePat = some d ∧
      m < x ∧ x < d ∧ d < (splitOnNl s).length ∧
      parse_judgment (JInput.text s) = threePartResult (splitOnNl s) m x d p ∧
      (cutRanges [0, m, m + 1, x, x + 1, d, d + 1,
        (splitOnNl s).length]).Pairwise Disjoint ∧
      (cutRanges [0, m, m + 1, x, x + 1, d, d + 1,
        (splitOnNl s).length]).foldr (· ∪ ·) ∅ =
        Finset.range (splitOnNl s).length) := by
  by_cases hs : s = []
  · subst hs
    rw [show parse_judgment (JInput.text []) = invalidInputResult from rfl] at h
    cases h
  · rw [parse_judgment_text_eq hs] at h ⊢
    rcases parseText_cases s (splitOnNl s) with
      ⟨m, f, r, d, hd, hm, hf, hr, hord, heq⟩ | heq
    · rw [heq] at h
      have hp : p = special_four_part_pattern := by
        simp only [fourPartResult] at h
        exact (Option.some.inj h).symm
      have hdlen : d < (splitOnNl s).length := findPos_lt_length hd
      have hchain : List.Chain' (· ≤ ·)
          ((0 : Nat) :: ([m, m + 1, f, f + 1, r, r + 1, d, d + 1] ++
            [(splitOnNl s).length])) := by
        simp only [List.cons_append, List.nil_append, List.chain'_cons,
          List.chain'_singleton, and_true]
        omega
      have hpart := cutRanges_partition_of_chain hchain
      exact Or.inl ⟨m, f, r, d, hp, hm, hf, hr, hd, hord.1, hord.2.1, hord.2.2,
        hdlen, heq, hpart.1, hpart.2⟩
    · rw [heq] at h ⊢
      obtain ⟨dF, mF, xF, mp, xp, dp, hshape, hmem, hfd, hfm, hfx, h5, h6, heq2⟩ :=
        tryPatterns_pattern_some h
      obtain ⟨x, hx⟩ := supported_patterns_shape p hmem
      have hx2 : [dF, mF, xF] = [datePat, mainPat, x] := by rw [← hshape, hx]
      injection hx2 with e1 hx3
      injection hx3 with e2 hx4
      injection hx4 with e3
      rw [e1] at hfd
      rw [e2] at hfm
      rw [e3] at hfx
      have hdlen : dp < (splitOnNl s).length := findPos_lt_length hfd
      have hchain : List.Chain' (· ≤ ·)
          ((0 : Nat) :: ([mp, mp + 1, xp, xp + 1, dp, dp + 1] ++
            [(splitOnNl s).length])) := by
        simp only [List.cons_append, List.nil_append, List.chain'_cons,
          List.chain'_singleton, and_true]
        omega
      have hpart := cutRanges_partition_of_chain hchain
      exact Or.inr ⟨mp, xp, dp, x, hx, hmem, hfm, hfx, hfd, h5, h6, hdlen,
        heq2, hpart.1, hpart.2⟩

/-- Witness for C2: a four-part document with non-trivial sections
(markers at lines 1, 3, 5, 7 of a 9-line document). -/
theorem selected_template_partition_witness :
    (∃ m f r d,
      special_four_part_pattern = special_four_part_pattern ∧
      findPos (splitOnNl "甲\n主文\n乙\n事實\n丙\n理由\n丁\n中華民國年月日\n戊".data)
        mainPat = some m ∧
      findPos (splitOnNl "甲\n主文\n乙\n事實\n丙\n理由\n丁\n中華民國年月日\n戊".data)
        factPat = some f ∧
      findPos (splitOnNl "甲\n主文\n乙\n事實\n丙\n理由\n丁\n中華民國年月日\n戊".data)
        reasonPat = some r ∧
      findPos (splitOnNl "甲\n主文\n乙\n事實\n丙\n理由\n丁\n中華民國年月日\n戊".data)
        datePat = some d ∧
      m < f ∧ f < r ∧ r < d ∧
      d < (splitOnNl "甲\n主文\n乙\n事實\n丙\n理由\n丁\n中華民國年月日\n戊".data).length ∧
      parse_judgment
          (JInput.text "甲\n主文\n乙\n事實\n丙\n理由\n丁\n中華民國年月日\n戊".data) =
        fourPartResult
          (splitOnNl "甲\n主文\n乙\n事實\n丙\n理由\n丁\n中華民國年月日\n戊".data) m f r d ∧
      (cutRanges [0, m, m + 1, f, f + 1, r, r + 1, d, d + 1,
        (splitOnNl "甲\n主文\n乙\n事實\n丙\n理由\n丁\n中華民國年月日\n戊".data).length]).Pairwise
        Disjoint ∧
      (cutRanges [0, m, m + 1, f, f + 1, r, r + 1, d, d + 1,
        (splitOnNl "甲\n主文\n乙\n事實\n丙\n理由\n丁\n中華民國年月日\n戊".data).length]).foldr
        (· ∪ ·) ∅ =
        Finset.range
          (splitOnNl "甲\n主文\n乙\n事實\n丙\n理由\n丁\n中華民國年月日\n戊".data).length) ∨
    (∃ m x d xFlag,
      special_four_part_pattern = [datePat, mainPat, xFlag] ∧
      special_four_part_pattern ∈ supported_patterns ∧
      findPos (splitOnNl "甲\n主文\n乙\n事實\n丙\n理由\n丁\n中華民國年月日\n戊".data)
        mainPat = some m ∧
      findPos (splitOnNl "甲\n主文\n乙\n事實\n丙\n理由\n丁\n中華民國年月日\n戊".data)
        xFlag = some x ∧
      findPos (splitOnNl "甲\n主文\n乙\n事實\n丙\n理由\n丁\n中華民國年月日\n戊".data)
        datePat = some d ∧
      m < x ∧ x < d ∧
      d < (splitOnNl "甲\n主文\n乙\n事實\n丙\n理由\n丁\n中華民國年月日\n戊".data).length ∧
      parse_judgment
          (JInput.text "甲\n主文\n乙\n事實\n丙\n理由\n丁\n中華民國年月日\n戊".data) =
        threePartResult
          (splitOnNl "甲\n主文\n乙\n事實\n丙\n理由\n丁\n中華民國年月日\n戊".data) m x d
          special_four_part_pattern ∧
      (cutRanges [0, m, m + 1, x, x + 1, d, d + 1,
        (splitOnNl "甲\n主文\n乙\n事實\n丙\n理由\n丁\n中華民國年月日\n戊".data).length]).Pairwise
        Disjoint ∧
      (cutRanges [0, m, m + 1, x, x + 1, d, d + 1,
        (splitOnNl "甲\n主文\n乙\n事實\n丙\n理由\n丁\n中華民國年月日\n戊".data).length]).foldr
        (· ∪ ·) ∅ =
        Finset.range
          (splitOnNl "甲\n主文\n乙\n事實\n丙\n理由\n丁\n中華民國年月日\n戊".data).length) :=
  selected_template_partition _ special_four_part_pattern (by decide)

/-- Decimal digit characters, the part of a concrete date line that the
canonical re-emission of the date marker discards. -/
def isDigitChar (c : Char) : Bool := '0' ≤ c && c ≤ '9'

theorem mem_optPart {l y : List Char} (h : l ∈ optPart y) : l = y := by
  unfold optPart at h
  split at h
  · cases h
  · simpa using h

theorem reconstruct_four_eq (components : ParseResult)
    (hp : components.pattern = some special_four_part_pattern) :
    reconstruct_judgment components =
      joinNl (optPart (strip components.preInfo) ++ [mainPat] ++
        optPart (strip components.main) ++ [factPat] ++
        optPart (strip (components.fact.getD [])) ++ [reasonPat] ++
        optPart (strip (components.reason.getD [])) ++ [datePat] ++
        optPart (strip components.postInfo)) := by
  unfold reconstruct_judgment
  split
  · rename_i hnone
    rw [hp] at hnone
    cases hnone
  · rename_i pattern hsome
    rw [hp] at hsome
    injection hsome with e
    subst e
    rw [if_neg (by decide), if_pos rfl]

theorem no_digit_in_slice {lines : List (List Char)} {d a b : Nat} {c : Char}
    (hdig : ∀ i, i < lines.length → i ≠ d →
      ∀ x ∈ lines.getD i [], isDigitChar x = false)
    (hbd : b ≤ d) (hc : c ∈ joinNl (pySlice lines a b)) :
    isDigitChar c = false := by
  rcases mem_joinNl hc with rfl | ⟨l, hl, hcl⟩
  · decide
  · obtain ⟨i, hai, hib, hget⟩ := mem_pySlice hl
    have hlen : i < lines.length := by
      by_contra hge
      rw [List.getElem?_eq_none (by omega)] at hget
      cases hget
    have hgd : lines.getD i [] = l := by
      rw [List.getD_eq_getElem?_getD, hget]
      rfl
    exact (hgd ▸ hdig i hlen (by omega)) c hcl

theorem no_digit_in_drop {lines : List (List Char)} {d : Nat} {c : Char}
    (hdig : ∀ i, i < lines.length → i ≠ d →
      ∀ x ∈ lines.getD i [], isDigitChar x = false)
    (hc : c ∈ joinNl (lines.drop (d + 1))) : isDigitChar c = false := by
  rcases mem_joinNl hc with rfl | ⟨l, hl, hcl⟩
  · decide
  · obtain ⟨i, hai, hget⟩ := mem_drop_getElem hl
    have hlen : i < lines.length := by
      by_contra hge
      rw [List.getElem?_eq_none (by omega)] at hget
      cases hget
    have hgd : lines.getD i [] = l := by
      rw [List.getD_eq_getElem?_getD, hget]
      rfl
    exact (hgd ▸ hdig i hlen (by omega)) c hcl

/-- Counterexample to claim C5 as stated: in this four-part document the
`Main` section contains the digit `'2'`, which is also a literal digit of
the matched date line (`中華民國2年3月4日`, line 6), so a digit substring
of the source date line does appear in the reconstructed text. -/
theorem reconstruct_date_digit_cex :
    (parse_judgment
      (JInput.text "主文\n有2個\n事實\n甲\n理由\n乙\n中華民國2年3月4日".data)).pattern =
        some special_four_part_pattern ∧
    '2' ∈ (splitOnNl "主文\n有2個\n事實\n甲\n理由\n乙\n中華民國2年3月4日".data).getD 6 [] ∧
    isDigitChar '2' = true ∧
    '2' ∈ reconstruct_judgment
      (parse_judgment
        (JInput.text "主文\n有2個\n事實\n甲\n理由\n乙\n中華民國2年3月4日".data)) := by
  decide

/-- Claim C5 (amended): for a document parsed with the four-marker
template whose digit characters occur only on the matched date line, the
reconstruction contains the canonical phrase `中華民國年月日` as a
contiguous substring and contains no digit character at all — the date
line's digits are never re-emitted.  (As stated the claim is false: a
digit of the date line may also occur in a section and is then copied
into the reconstruction; see the counterexample.) -/
theorem reconstruct_date_canonical (s : List Char) (m f r d : Nat)
    (hm : findPos (splitOnNl s) mainPat = some m)
    (hf : findPos (splitOnNl s) factPat = some f)
    (hr : findPos (splitOnNl s) reasonPat = some r)
    (hd : findPos (splitOnNl s) datePat = some d)
    (hmf : m < f) (hfr : f < r) (hrd : r < d)
    (hdig : ∀ i, i < (splitOnNl s).length → i ≠ d →
      ∀ x ∈ (splitOnNl s).getD i [], isDigitChar x = false) :
    datePat <:+:
      reconstruct_judgment (parse_judgment (JInput.text s)) ∧
    ∀ c ∈ reconstruct_judgment (parse_judgment (JInput.text s)),
      isDigitChar c = false := by
  have hs : s ≠ [] := by
    intro hnil
    subst hnil
    rw [show findPos (splitOnNl []) mainPat = none from by decide] at hm
    cases hm
  have hparse : parse_judgment (JInput.text s) =
      fourPartResult (splitOnNl s) m f r d := by
    rw [parse_judgment_text_eq hs]
    exact parseText_four hd hm hf hr ⟨hmf, hfr, hrd⟩
  rw [hparse, reconstruct_four_eq _ rfl]
  constructor
  · exact infix_joinNl (by simp)
  · intro c hc
    rcases mem_joinNl hc with rfl | ⟨l, hl, hcl⟩
    · decide
    · simp only [List.append_assoc, List.mem_append, List.mem_singleton] at hl
      rcases hl with h | h | h | h | h | h | h | h | h
      · exact no_digit_in_slice hdig (by omega)
          (mem_of_mem_strip (mem_of_mem_strip (mem_optPart h ▸ hcl)))
      · exact (by decide : ∀ x ∈ mainPat, isDigitChar x = false) c (h ▸ hcl)
      · exact no_digit_in_slice hdig (by omega)
          (mem_of_mem_strip (mem_of_mem_strip (mem_optPart h ▸ hcl)))
      · exact (by decide : ∀ x ∈ factPat, isDigitChar x = false) c (h ▸ hcl)
      · exact no_digit_in_slice hdig (by omega)
          (mem_of_mem_strip (mem_of_mem_strip (mem_optPart h ▸ hcl)))
      · exact (by decide : ∀ x ∈ reasonPat, isDigitChar x = false) c (h ▸ hcl)
      · exact no_digit_in_slice hdig (by omega)
          (mem_of_mem_strip (mem_of_mem_strip (mem_optPart h ▸ hcl)))
      · exact (by decide : ∀ x ∈ datePat, isDigitChar x = false) c (h ▸ hcl)
      · exact no_digit_in_drop hdig
          (mem_of_mem_strip (mem_of_mem_strip (mem_optPart h ▸ hcl)))

/-- Witness for the amended C5: a four-part document whose only digits sit
on the date line. -/
theorem reconstruct_date_canonical_witness :
    datePat <:+:
      reconstruct_judgment
        (parse_judgment
          (JInput.text "主文\n甲\n事實\n乙\n理由\n丙\n中華民國99年9月9日".data)) ∧
    ∀ c ∈ reconstruct_judgment
        (parse_judgment
          (JInput.text "主文\n甲\n事實\n乙\n理由\n丙\n中華民國99年9月9日".data)),
      isDigitChar c = false :=
  reconstruct_date_canonical _ 0 2 4 6 (by decide) (by decide) (by decide)
    (by decide) (by decide) (by decide) (by decide) (by decide)

/-! ### Lemmas about the batch sharding loop -/

/-- Sum of the batch sizes of `count` workers starting at index `i`. -/
def sumSizes (q r : Nat) : Nat → Nat → Nat
  | _, 0 => 0
  | i, count + 1 => sizeAt q r i + sumSizes q r (i + 1) count

theorem sumSizes_eval (q r : Nat) :
    ∀ count i, sumSizes q r i count = q * count + (min r (i + count) - min r i) := by
  intro count
  induction count with
  | zero => intro i; simp [sumSizes]
  | succ c ih =>
    intro i
    rw [show sumSizes q r i (c + 1) = sizeAt q r i + sumSizes q r (i + 1) c from by
      simp [sumSizes], ih (i + 1), Nat.mul_succ]
    unfold sizeAt
    rcases Nat.lt_or_ge i r with h | h
    · rw [if_pos h]
      have e1 : min r i = i := by omega
      have e4 : min r (i + (c + 1)) = min r (i + 1 + c) := by
        have : i + (c + 1) = i + 1 + c := by omega
        rw [this]
      rw [e1, e4]
      have e5 : min r (i + 1 + c) ≤ i + 1 + c := Nat.min_le_right _ _
      have e6 : min r (i + 1 + c) ≤ r := Nat.min_le_left _ _
      have e7 : min r (i + 1) ≤ min r (i + 1 + c) := by
        rcases Nat.lt_or_ge (i + 1) r with h3 | h3
        · have : min r (i + 1) = i + 1 := by omega
          omega
        · have e8 : min r (i + 1) = r := by omega
          omega
      have e9 : i + 1 ≤ min r (i + 1) := by
        rcases Nat.lt_or_ge (i + 1) r with h3 | h3
        · have : min r (i + 1) = i + 1 := by omega
          omega
        · have e8 : min r (i + 1) = r := by omega
          omega
      omega
    · rw [if_neg (by omega)]
      have e1 : min r i = r := by omega
      have e2 : min r (i + 1) = r := by omega
      have e4 : min r (i + (c + 1)) = r := by omega
      have e3 : min r (i + 1 + c) = r := by omega
      rw [e1, e2, e3, e4]
      omega

theorem sumSizes_succ (q r i c : Nat) :
    sumSizes q r i (c + 1) = sizeAt q r i + sumSizes q r (i + 1) c := by
  simp [sumSizes]

theorem fileBatchesGo_join (files : List α) (q r : Nat) :
    ∀ count i start,
      (fileBatchesGo files q r i start count).flatten =
        pySlice files start (start + sumSizes q r i count) := by
  intro count
  induction count with
  | zero =>
    intro i start
    simp [fileBatchesGo, sumSizes, pySlice]
  | succ c ih =>
    intro i start
    unfold fileBatchesGo
    by_cases hbs : 0 < sizeAt q r i
    · rw [if_pos hbs, List.flatten_cons, ih (i + 1) (start + sizeAt q r i),
        pySlice_append files (Nat.le_add_right _ _) (Nat.le_add_right _ _),
        sumSizes_succ, Nat.add_assoc]
    · rw [if_neg hbs, ih (i + 1) start, sumSizes_succ]
      have h0 : sizeAt q r i = 0 := by omega
      rw [h0, Nat.zero_add]

theorem fileBatchesGo_length_pos (files : List α) (q r : Nat) (hq : 0 < q) :
    ∀ count i start, (fileBatchesGo files q r i start count).length = count := by
  intro count
  induction count with
  | zero => intro i start; rfl
  | succ c ih =>
    intro i start
    unfold fileBatchesGo
    have hbs : 0 < sizeAt q r i := by unfold sizeAt; split <;> omega
    rw [if_pos hbs, List.length_cons, ih (i + 1) (start + sizeAt q r i)]

theorem fileBatchesGo_length_zero (files : List α) (r : Nat) :
    ∀ count i start, (fileBatchesGo files 0 r i start count).length =
      min r (i + count) - min r i := by
  intro count
  induction count with
  | zero => intro i start; simp [fileBatchesGo]
  | succ c ih =>
    intro i start
    unfold fileBatchesGo
    by_cases hir : i < r
    · have hbs : 0 < sizeAt 0 r i := by
        unfold sizeAt
        rw [if_pos hir]
        omega
      rw [if_pos hbs, List.length_cons, ih (i + 1) _]
      omega
    · have hbs : sizeAt 0 r i = 0 := by
        unfold sizeAt
        rw [if_neg hir]
      rw [if_neg (by omega), ih (i + 1) start]
      omega

theorem fileBatchesGo_mem_length (files : List α) (q r : Nat) :
    ∀ count i start, start + sumSizes q r i count ≤ files.length →
      ∀ b ∈ fileBatchesGo files q r i start count,
        ∃ j, i ≤ j ∧ j < i + count ∧ b.length = sizeAt q r j ∧
          0 < sizeAt q r j := by
  intro count
  induction count with
  | zero =>
    intro i start _ b hb
    simp [fileBatchesGo] at hb
  | succ c ih =>
    intro i start hbound b hb
    rw [sumSizes_succ] at hbound
    unfold fileBatchesGo at hb
    by_cases hbs : 0 < sizeAt q r i
    · rw [if_pos hbs] at hb
      rcases List.mem_cons.mp hb with rfl | hb2
      · refine ⟨i, Nat.le_refl i, by omega, ?_, hbs⟩
        rw [pySlice_length (Nat.le_add_right _ _) (by omega)]
        omega
      · obtain ⟨j, hj1, hj2, hj3⟩ :=
          ih (i + 1) (start + sizeAt q r i) (by omega) b hb2
        exact ⟨j, by omega, by omega, hj3⟩
    · rw [if_neg hbs] at hb
      have h0 : sizeAt q r i = 0 := by omega
      obtain ⟨j, hj1, hj2, hj3⟩ := ih (i + 1) start (by omega) b hb
      exact ⟨j, by omega, by omega, hj3⟩

theorem sizeAt_bounds (q r j : Nat) : q ≤ sizeAt q r j ∧ sizeAt q r j ≤ q + 1 := by
  unfold sizeAt
  split <;> omega

theorem sumSizes_total {N K : Nat} (hK : 1 ≤ K) :
    sumSizes (N / K) (N % K) 0 K = N := by
  rw [sumSizes_eval]
  have h1 : N % K < K := Nat.mod_lt _ (by omega)
  have h2 : K * (N / K) + N % K = N := Nat.div_add_mod N K
  have h3 : min (N % K) (0 + K) = N % K := by omega
  have h4 : min (N % K) 0 = 0 := by omega
  rw [h3, h4]
  have := Nat.mul_comm (N / K) K
  omega

/-- Counterexample to claim C8 as stated: sharding 2 files across 3
workers yields only 2 shards, not exactly `K = 3` — a worker whose
computed batch size is zero is skipped by the `if batch_size > 0` guard. -/
theorem file_batches_count_cex :
    fileBatches ([0, 1] : List Nat) 3 = [[0], [1]] ∧
    (fileBatches ([0, 1] : List Nat) 3).length = 2 ∧ (2 : Nat) ≠ 3 := by
  decide

/-- Claim C8 (amended): for `N` files and `K ≥ 1` workers the sharding
step yields `min K N` contiguous, non-overlapping shards (exactly `K`
when `N ≥ K`, but only `N` singleton shards when `N < K`): their
concatenation in order is the whole file list, the shard sizes sum to
`N`, and any two shard sizes differ by at most one. -/
theorem file_batches_partition {α : Type} (files : List α) (K : Nat)
    (hK : 1 ≤ K) :
    (fileBatches files K).flatten = files ∧
    ((fileBatches files K).map List.length).sum = files.length ∧
    (fileBatches files K).length = min K files.length ∧
    (∀ b1 ∈ fileBatches files K, ∀ b2 ∈ fileBatches files K,
      b1.length ≤ b2.length + 1) := by
  have hflat : (fileBatches files K).flatten = files := by
    unfold fileBatches
    rw [fileBatchesGo_join, sumSizes_total hK, Nat.zero_add, pySlice_zero,
      List.take_length]
  refine ⟨hflat, ?_, ?_, ?_⟩
  · rw [← List.length_flatten, hflat]
  · unfold fileBatches
    rcases Nat.lt_or_ge files.length K with hlt | hge
    · have hq : files.length / K = 0 := Nat.div_eq_of_lt hlt
      have hr : files.length % K = files.length := Nat.mod_eq_of_lt hlt
      rw [hq, hr, fileBatchesGo_length_zero]
      have e1 : min files.length (0 + K) = files.length := by omega
      have e2 : min files.length 0 = 0 := by omega
      have e3 : min K files.length = files.length := by omega
      omega
    · have hq : 0 < files.length / K := Nat.div_pos hge (by omega)
      rw [fileBatchesGo_length_pos files _ _ hq]
      have e3 : min K files.length = K := by omega
      omega
  · intro b1 hb1 b2 hb2
    have hbound : (0 : Nat) +
        sumSizes (files.length / K) (files.length % K) 0 K ≤ files.length := by
      rw [sumSizes_total hK]
      omega
    obtain ⟨j1, _, _, hl1, _⟩ :=
      fileBatchesGo_mem_length files _ _ K 0 0 hbound b1 hb1
    obtain ⟨j2, _, _, hl2, _⟩ :=
      fileBatchesGo_mem_length files _ _ K 0 0 hbound b2 hb2
    have hb1b := sizeAt_bounds (files.length / K) (files.length % K) j1
    have hb2b := sizeAt_bounds (files.length / K) (files.length % K) j2
    omega

/-- Witness for the amended C8: seven files across three workers give
shards of sizes 3, 2, 2. -/
theorem file_batches_partition_witness :
    (fileBatches ([0, 1, 2, 3, 4, 5, 6] : List Nat) 3).flatten =
      [0, 1, 2, 3, 4, 5, 6] ∧
    ((fileBatches ([0, 1, 2, 3, 4, 5, 6] : List Nat) 3).map List.length).sum =
      ([0, 1, 2, 3, 4, 5, 6] : List Nat).length ∧
    (fileBatches ([0, 1, 2, 3, 4, 5, 6] : List Nat) 3).length =
      min 3 ([0, 1, 2, 3, 4, 5, 6] : List Nat).length ∧
    (∀ b1 ∈ fileBatches ([0, 1, 2, 3, 4, 5, 6] : List Nat) 3,
      ∀ b2 ∈ fileBatches ([0, 1, 2, 3, 4, 5, 6] : List Nat) 3,
      b1.length ≤ b2.length + 1) :=
  file_batches_partition [0, 1, 2, 3, 4, 5, 6] 3 (by decide)

/-! ### Spec-side characterization of the ordinary marker rule (claim C4) -/

/-- Modelled from the spec's words: `body` is the marker's characters in
order with zero or more whitespace characters between each consecutive
pair. -/
inductive FlagChars : List Char → List Char → Prop
  | last (c : Char) : FlagChars [c] [c]
  | cons (c : Char) (ws : List Char) (fs body : List Char) :
      (∀ w ∈ ws, isWs w = true) → FlagChars fs body →
      FlagChars (c :: fs) (c :: (ws ++ body))

/-- Modelled from the spec's words: the whole line consists of the
marker's characters in order with whitespace between consecutive
characters, optionally followed by one separator character (whitespace
being allowed around every character, hence also before the separator)
and trailing whitespace. -/
def SpecFlagLine (flag line : List Char) : Prop :=
  ∃ body ws1 sep ws2,
    FlagChars flag body ∧
    (∀ w ∈ ws1, isWs w = true) ∧
    (sep = [] ∨ ∃ c, isSep c = true ∧ sep = [c]) ∧
    (∀ w ∈ ws2, isWs w = true) ∧
    line = body ++ ws1 ++ sep ++ ws2

theorem sep_not_ws {c : Char} (h : isSep c = true) : isWs c = false := by
  unfold isSep at h
  simp only [Bool.or_eq_true, decide_eq_true_eq] at h
  rcases h with (rfl | rfl) | rfl <;> decide

theorem flagMatch_eq_none {flag cs : List Char}
    (h : matchSeq flag cs = none) : flagMatch flag cs = false := by
  unfold flagMatch
  rw [h]

theorem flagMatch_eq_some {flag cs rest : List Char}
    (h : matchSeq flag cs = some rest) : flagMatch flag cs = sepTail rest := by
  unfold flagMatch
  rw [h]

theorem sepTail_of_all_ws {rest : List Char}
    (h : ∀ w ∈ rest, isWs w = true) : sepTail rest = true := by
  unfold sepTail
  rw [dropWs_eq_nil_iff.mpr h]

theorem sepTail_sep {ws1 ws2 : List Char} {c : Char}
    (hws1 : ∀ w ∈ ws1, isWs w = true) (hsep : isSep c = true)
    (hws2 : ∀ w ∈ ws2, isWs w = true) :
    sepTail (ws1 ++ c :: ws2) = true := by
  have hred : dropWs (ws1 ++ c :: ws2) = c :: ws2 := by
    rw [dropWs_append_ws hws1]
    exact dropWs_cons_of_neg (sep_not_ws hsep)
  simp only [sepTail, hred, hsep, Bool.true_and, List.isEmpty_iff]
  exact dropWs_eq_nil_iff.mpr hws2

theorem matchSeq_sound :
    ∀ {flag cs r : List Char}, flag ≠ [] → matchSeq flag cs = some r →
      ∃ ws0 body, (∀ w ∈ ws0, isWs w = true) ∧ FlagChars flag body ∧
        cs = ws0 ++ body ++ r := by
  intro flag
  induction flag with
  | nil => intro cs r h; exact absurd rfl h
  | cons f fs ih =>
    intro cs r _ h
    unfold matchSeq at h
    split at h
    · cases h
    · rename_i c rest hdw
      split at h
      · rename_i hcf
        subst hcf
        have hsplit : cs = cs.takeWhile isWs ++ c :: rest := by
          conv_lhs => rw [← List.takeWhile_append_dropWhile (p := isWs) (l := cs)]
          rw [show List.dropWhile isWs cs = c :: rest from hdw]
        have hws0 : ∀ w ∈ cs.takeWhile isWs, isWs w = true :=
          fun w hw => List.mem_takeWhile_imp hw
        cases fs with
        | nil =>
          have hr : r = rest := by
            unfold matchSeq at h
            exact (Option.some.inj h).symm
          subst hr
          refine ⟨cs.takeWhile isWs, [c], hws0, FlagChars.last c, ?_⟩
          calc cs = cs.takeWhile isWs ++ c :: r := hsplit
            _ = cs.takeWhile isWs ++ [c] ++ r := by
              simp [List.append_assoc]
        | cons f2 fs2 =>
          obtain ⟨ws1, body, hws1, hfc, hrest⟩ := ih (by simp) h
          refine ⟨cs.takeWhile isWs, c :: (ws1 ++ body), hws0,
            FlagChars.cons c ws1 _ _ hws1 hfc, ?_⟩
          calc cs = cs.takeWhile isWs ++ c :: rest := hsplit
            _ = cs.takeWhile isWs ++ c :: (ws1 ++ body ++ r) := by rw [hrest]
            _ = cs.takeWhile isWs ++ (c :: (ws1 ++ body)) ++ r := by
              simp [List.append_assoc]
      · cases h

theorem matchSeq_complete :
    ∀ {flag body : List Char}, FlagChars flag body →
      (∀ c ∈ flag, isWs c = false) →
      ∀ ws ext, (∀ w ∈ ws, isWs w = true) →
        matchSeq flag (ws ++ body ++ ext) = some ext := by
  intro flag body hfc
  induction hfc with
  | last c =>
    intro hflag ws ext hws
    have h1 : dropWs (ws ++ [c] ++ ext) = c :: ext := by
      rw [List.append_assoc, dropWs_append_ws hws]
      exact dropWs_cons_of_neg (hflag c (by simp))
    simp only [matchSeq, h1, if_true]
  | cons c ws1 fs body hws1 hfc2 ih =>
    intro hflag ws ext hws
    have h1 : dropWs (ws ++ (c :: (ws1 ++ body)) ++ ext) =
        c :: (ws1 ++ body ++ ext) := by
      rw [List.append_assoc, dropWs_append_ws hws,
        show (c :: (ws1 ++ body)) ++ ext = c :: (ws1 ++ body ++ ext) from by
          simp [List.append_assoc],
        dropWs_cons_of_neg (hflag c (by simp))]
    simp only [matchSeq, h1, if_true]
    exact ih (fun x hx => hflag x (by simp [hx])) ws1 ext hws1

theorem flagMatch_iff_spec {flag line : List Char} (hdate : flag ≠ datePat)
    (hne : flag ≠ []) (hflag : ∀ c ∈ flag, isWs c = false)
    (htrim : strip line = line) :
    lineMatches flag line = true ↔ SpecFlagLine flag line := by
  unfold lineMatches
  rw [if_neg hdate, htrim]
  constructor
  · intro h
    cases hms : matchSeq flag line with
    | none => rw [flagMatch_eq_none hms] at h; cases h
    | some rest =>
      rw [flagMatch_eq_some hms] at h
      obtain ⟨ws0, body, hws0, hfc, hline⟩ := matchSeq_sound hne hms
      have hws0nil : ws0 = [] := by
        cases hw : ws0 with
        | nil => rfl
        | cons w ws' =>
          exfalso
          have hdl : dropWs line = line := dropWs_eq_self_of_strip_eq_self htrim
          rw [hline, hw] at hdl
          have hisw : isWs w = true := hws0 w (by rw [hw]; simp)
          rw [show (w :: ws') ++ body ++ rest =
            w :: (ws' ++ body ++ rest) from by simp [List.append_assoc]] at hdl
          unfold dropWs at hdl
          rw [List.dropWhile_cons_of_pos hisw] at hdl
          have hlen := congrArg List.length hdl
          have hle := (List.dropWhile_sublist isWs
            (l := ws' ++ body ++ rest)).length_le
          simp only [List.length_cons] at hlen
          omega
      rw [hws0nil, List.nil_append] at hline
      unfold sepTail at h
      split at h
      · rename_i hdr
        have hrest : ∀ w ∈ rest, isWs w = true := dropWs_eq_nil_iff.mp hdr
        refine ⟨body, rest, [], [], hfc, hrest, Or.inl rfl, by simp, ?_⟩
        rw [hline]
        simp
      · rename_i c rest2 hdr
        simp only [Bool.and_eq_true] at h
        have hsep : isSep c = true := h.1
        have hr2 : ∀ w ∈ rest2, isWs w = true := by
          have h2 := h.2
          rw [List.isEmpty_iff] at h2
          exact dropWs_eq_nil_iff.mp h2
        have hrsplit : rest = rest.takeWhile isWs ++ c :: rest2 := by
          conv_lhs => rw [← List.takeWhile_append_dropWhile (p := isWs) (l := rest)]
          rw [show List.dropWhile isWs rest = c :: rest2 from hdr]
        refine ⟨body, rest.takeWhile isWs, [c], rest2, hfc,
          fun w hw => List.mem_takeWhile_imp hw, Or.inr ⟨c, hsep, rfl⟩, hr2, ?_⟩
        calc line = body ++ rest := hline
          _ = body ++ (rest.takeWhile isWs ++ c :: rest2) := by
            conv_lhs => rw [hrsplit]
          _ = body ++ rest.takeWhile isWs ++ [c] ++ rest2 := by
            simp [List.append_assoc]
  · rintro ⟨body, ws1, sep, ws2, hfc, hws1, hsep, hws2, hline⟩
    have hms : matchSeq flag (body ++ (ws1 ++ sep ++ ws2)) =
        some (ws1 ++ sep ++ ws2) := by
      have hm2 := matchSeq_complete hfc hflag [] (ws1 ++ sep ++ ws2) (by simp)
      simpa using hm2
    rw [show line = body ++ (ws1 ++ sep ++ ws2) from by
      rw [hline]; simp [List.append_assoc]]
    rw [flagMatch_eq_some hms]
    rcases hsep with rfl | ⟨c, hc, rfl⟩
    · apply sepTail_of_all_ws
      intro w hw
      simp only [List.append_nil, List.mem_append] at hw
      rcases hw with hw | hw
      · exact hws1 w hw
      · exact hws2 w hw
    · rw [show ws1 ++ [c] ++ ws2 = ws1 ++ c :: ws2 from by simp]
      exact sepTail_sep hws1 hc hws2

/-- Claim C4: for every non-date, non-empty marker whose characters are
not whitespace, the rule built by `_create_pattern` accepts a trimmed line
exactly when the line is the marker's characters in order with whitespace
between consecutive characters, optionally followed by one separator
(`：`, `:` or `︰`) and trailing whitespace, anchored over the whole line;
in particular `主　文` (full-width space inserted) is recognized as the
operative-holding marker while a line containing `主文` only as a proper
substring is not. -/
theorem flag_rule_spec :
    (∀ flag line, flag ≠ datePat → flag ≠ [] →
      (∀ c ∈ flag, isWs c = false) → strip line = line →
      (lineMatches flag line = true ↔ SpecFlagLine flag line)) ∧
    lineMatches mainPat "主　文".data = true ∧
    lineMatches mainPat "前主文後".data = false :=
  ⟨fun _ _ hd hn hf ht => flagMatch_iff_spec hd hn hf ht, by decide, by decide⟩

/-- Witness for C4: the equivalence instantiated at the operative-holding
marker and the full-width-spaced line `主　文`. -/
theorem flag_rule_spec_witness :
    lineMatches mainPat "主　文".data = true ↔
      SpecFlagLine mainPat "主　文".data :=
  flag_rule_spec.1 mainPat "主　文".data (by decide) (by decide) (by decide)
    (by decide)

/-! ### Reparse stability of reconstruction (claim C9) -/

/-- The lines a section string contributes to the reconstructed document:
none when the section is empty (its part is omitted), its split lines
otherwise. -/
def splitOpt (x : List Char) : List (List Char) :=
  if x.isEmpty then [] else splitOnNl x

/-- Every marker flag of every template. -/
def allFlags : List (List Char) :=
  special_four_part_pattern ++ supported_patterns.flatten

/-- No line of the string matches any template marker's rule. -/
def NoMarkerLines (x : List Char) : Prop :=
  ∀ l ∈ splitOnNl x, ∀ g ∈ allFlags, lineMatches g l = false

instance (x : List Char) : Decidable (NoMarkerLines x) := by
  unfold NoMarkerLines
  infer_instance

theorem noMarker_splitOpt {x g : List Char} (h : NoMarkerLines x)
    (hg : g ∈ allFlags) : ∀ l ∈ splitOpt x, lineMatches g l = false := by
  intro l hl
  unfold splitOpt at hl
  split at hl
  · cases hl
  · exact h l hl g hg

theorem flatten_map_splitOnNl_optPart (x : List Char) :
    ((optPart x).map splitOnNl).flatten = splitOpt x := by
  unfold optPart splitOpt
  split
  · rfl
  · simp

theorem strip_joinNl_splitOpt {x : List Char} (h : strip x = x) :
    strip (joinNl (splitOpt x)) = x := by
  unfold splitOpt
  split
  · rename_i he
    rw [List.isEmpty_iff] at he
    rw [he]
    rfl
  · rw [joinNl_splitOnNl, h]

theorem optPart_strip_eq {x : List Char} (h : strip x = x) :
    optPart (strip x) = optPart x := by
  rw [h]

theorem splitOpt_length_lines (x : List Char) :
    joinNl (splitOpt x) = [] ∨ splitOpt x ≠ [] := by
  unfold splitOpt
  split
  · exact Or.inl rfl
  · exact Or.inr (splitOnNl_ne_nil x)

/-- The nine combined facts-and-reasoning labels, in declared order. -/
def combinedLabels : List (List Char) :=
  supported_patterns.map (fun q => q.getD 2 [])

theorem label_matrix : ∀ a ∈ combinedLabels, ∀ b ∈ combinedLabels,
    lineMatches a b = decide (a = b) := by decide

theorem label_vs_markers : ∀ a ∈ combinedLabels,
    lineMatches a mainPat = false ∧ lineMatches a datePat = false ∧
    lineMatches datePat a = false ∧ lineMatches mainPat a = false ∧
    lineMatches factPat a = decide (a = factPat) ∧
    lineMatches reasonPat a = decide (a = reasonPat) ∧
    splitOnNl a = [a] ∧ a ∈ allFlags ∧ a ≠ [] := by decide

theorem split_mainPat : splitOnNl mainPat = [mainPat] := by decide

theorem split_factPat : splitOnNl factPat = [factPat] := by decide

theorem split_reasonPat : splitOnNl reasonPat = [reasonPat] := by decide

theorem split_datePat : splitOnNl datePat = [datePat] := by decide

/-- Parsing the canonical four-part line layout produced by
reconstruction recovers the five sections exactly. -/
theorem parseText_canonical_four (s pre mainC fc rc po : List Char)
    (hpre_t : strip pre = pre) (hmain_t : strip mainC = mainC)
    (hfc_t : strip fc = fc) (hrc_t : strip rc = rc) (hpo_t : strip po = po)
    (hpre_m : NoMarkerLines pre) (hmain_m : NoMarkerLines mainC)
    (hfc_m : NoMarkerLines fc) (hrc_m : NoMarkerLines rc)
    (hpo_m : NoMarkerLines po) :
    parseText s (splitOpt pre ++ ([mainPat] ++ (splitOpt mainC ++ ([factPat] ++
      (splitOpt fc ++ ([reasonPat] ++ (splitOpt rc ++ ([datePat] ++
        splitOpt po)))))))) =
    { preInfo := pre, main := mainC, fact := some fc, reason := some rc,
      factAndReason := none, postInfo := po,
      pattern := some special_four_part_pattern, error := none } := by
  have hm : findPos (splitOpt pre ++ ([mainPat] ++ (splitOpt mainC ++
      ([factPat] ++ (splitOpt fc ++ ([reasonPat] ++ (splitOpt rc ++
      ([datePat] ++ splitOpt po)))))))) mainPat =
      some (splitOpt pre).length := by
    rw [findPos_append_none (noMarker_splitOpt hpre_m (by decide)),
      List.singleton_append, findPos_cons_match (by decide)]
    simp
  have hf : findPos (splitOpt pre ++ ([mainPat] ++ (splitOpt mainC ++
      ([factPat] ++ (splitOpt fc ++ ([reasonPat] ++ (splitOpt rc ++
      ([datePat] ++ splitOpt po)))))))) factPat =
      some ((splitOpt pre).length + 1 + (splitOpt mainC).length) := by
    rw [findPos_append_none (noMarker_splitOpt hpre_m (by decide)),
      List.singleton_append, findPos_cons_nomatch (by decide),
      findPos_append_none (noMarker_splitOpt hmain_m (by decide)),
      List.singleton_append, findPos_cons_match (by decide)]
    simp only [Option.map_some', Option.some.injEq]
    omega
  have hr2 : findPos (splitOpt pre ++ ([mainPat] ++ (splitOpt mainC ++
      ([factPat] ++ (splitOpt fc ++ ([reasonPat] ++ (splitOpt rc ++
      ([datePat] ++ splitOpt po)))))))) reasonPat =
      some ((splitOpt pre).length + 1 + (splitOpt mainC).length + 1 +
        (splitOpt fc).length) := by
    rw [findPos_append_none (noMarker_splitOpt hpre_m (by decide)),
      List.singleton_append, findPos_cons_nomatch (by decide),
      findPos_append_none (noMarker_splitOpt hmain_m (by decide)),
      List.singleton_append, findPos_cons_nomatch (by decide),
      findPos_append_none (noMarker_splitOpt hfc_m (by decide)),
      List.singleton_append, findPos_cons_match (by decide)]
    simp only [Option.map_some', Option.some.injEq]
    omega
  have hd2 : findPos (splitOpt pre ++ ([mainPat] ++ (splitOpt mainC ++
      ([factPat] ++ (splitOpt fc ++ ([reasonPat] ++ (splitOpt rc ++
      ([datePat] ++ splitOpt po)))))))) datePat =
      some ((splitOpt pre).length + 1 + (splitOpt mainC).length + 1 +
        (splitOpt fc).length + 1 + (splitOpt rc).length) := by
    rw [findPos_append_none (noMarker_splitOpt hpre_m (by decide)),
      List.singleton_append, findPos_cons_nomatch (by decide),
      findPos_append_none (noMarker_splitOpt hmain_m (by decide)),
      List.singleton_append, findPos_cons_nomatch (by decide),
      findPos_append_none (noMarker_splitOpt hfc_m (by decide)),
      List.singleton_append, findPos_cons_nomatch (by decide),
      findPos_append_none (noMarker_splitOpt hrc_m (by decide)),
      List.singleton_append, findPos_cons_match (by decide)]
    simp only [Option.map_some', Option.some.injEq]
    omega
  rw [parseText_four hd2 hm hf hr2 (by omega)]
  have hslice_pre : pySlice (splitOpt pre ++ ([mainPat] ++ (splitOpt mainC ++
      ([factPat] ++ (splitOpt fc ++ ([reasonPat] ++ (splitOpt rc ++
      ([datePat] ++ splitOpt po)))))))) 0 (splitOpt pre).length =
      splitOpt pre := by
    rw [pySlice_zero]
    exact List.take_left _ _
  have hslice_main : pySlice (splitOpt pre ++ ([mainPat] ++ (splitOpt mainC ++
      ([factPat] ++ (splitOpt fc ++ ([reasonPat] ++ (splitOpt rc ++
      ([datePat] ++ splitOpt po)))))))) ((splitOpt pre).length + 1)
      ((splitOpt pre).length + 1 + (splitOpt mainC).length) =
      splitOpt mainC := by
    have h1 := pySlice_infix (splitOpt pre ++ [mainPat]) (splitOpt mainC)
      ([factPat] ++ (splitOpt fc ++ ([reasonPat] ++ (splitOpt rc ++
        ([datePat] ++ splitOpt po)))))
    rw [show (splitOpt pre ++ [mainPat]).length = (splitOpt pre).length + 1
      from by simp] at h1
    rw [show splitOpt pre ++ [mainPat] ++ splitOpt mainC ++
        ([factPat] ++ (splitOpt fc ++ ([reasonPat] ++ (splitOpt rc ++
        ([datePat] ++ splitOpt po))))) =
      splitOpt pre ++ ([mainPat] ++ (splitOpt mainC ++ ([factPat] ++
        (splitOpt fc ++ ([reasonPat] ++ (splitOpt rc ++ ([datePat] ++
        splitOpt po))))))) from by simp [List.append_assoc]] at h1
    exact h1
  have hslice_fact : pySlice (splitOpt pre ++ ([mainPat] ++ (splitOpt mainC ++
      ([factPat] ++ (splitOpt fc ++ ([reasonPat] ++ (splitOpt rc ++
      ([datePat] ++ splitOpt po))))))))
      ((splitOpt pre).length + 1 + (splitOpt mainC).length + 1)
      ((splitOpt pre).length + 1 + (splitOpt mainC).length + 1 +
        (splitOpt fc).length) = splitOpt fc := by
    have h1 := pySlice_infix
      (splitOpt pre ++ [mainPat] ++ splitOpt mainC ++ [factPat]) (splitOpt fc)
      ([reasonPat] ++ (splitOpt rc ++ ([datePat] ++ splitOpt po)))
    have hlen : (splitOpt pre ++ [mainPat] ++ splitOpt mainC ++
        [factPat]).length
      = (splitOpt pre).length + 1 + (splitOpt mainC).length + 1 := by
      simp
      omega
    rw [hlen] at h1
    rw [show splitOpt pre ++ [mainPat] ++ splitOpt mainC ++ [factPat] ++
        splitOpt fc ++ ([reasonPat] ++ (splitOpt rc ++ ([datePat] ++
        splitOpt po))) =
      splitOpt pre ++ ([mainPat] ++ (splitOpt mainC ++ ([factPat] ++
        (splitOpt fc ++ ([reasonPat] ++ (splitOpt rc ++ ([datePat] ++
        splitOpt po))))))) from by simp [List.append_assoc]] at h1
    exact h1
  have hslice_reason : pySlice (splitOpt pre ++ ([mainPat] ++ (splitOpt mainC ++
      ([factPat] ++ (splitOpt fc ++ ([reasonPat] ++ (splitOpt rc ++
      ([datePat] ++ splitOpt po))))))))
      ((splitOpt pre).length + 1 + (splitOpt mainC).length + 1 +
        (splitOpt fc).length + 1)
      ((splitOpt pre).length + 1 + (splitOpt mainC).length + 1 +
        (splitOpt fc).length + 1 + (splitOpt rc).length) = splitOpt rc := by
    have h1 := pySlice_infix
      (splitOpt pre ++ [mainPat] ++ splitOpt mainC ++ [factPat] ++
        splitOpt fc ++ [reasonPat]) (splitOpt rc)
      ([datePat] ++ splitOpt po)
    have hlen : (splitOpt pre ++ [mainPat] ++ splitOpt mainC ++ [factPat] ++
        splitOpt fc ++ [reasonPat]).length
      = (splitOpt pre).length + 1 + (splitOpt mainC).length + 1 +
        (splitOpt fc).length + 1 := by
      simp
      omega
    rw [hlen] at h1
    rw [show splitOpt pre ++ [mainPat] ++ splitOpt mainC ++ [factPat] ++
        splitOpt fc ++ [reasonPat] ++ splitOpt rc ++ ([datePat] ++
        splitOpt po) =
      splitOpt pre ++ ([mainPat] ++ (splitOpt mainC ++ ([factPat] ++
        (splitOpt fc ++ ([reasonPat] ++ (splitOpt rc ++ ([datePat] ++
        splitOpt po))))))) from by simp [List.append_assoc]] at h1
    exact h1
  have hdrop_post : (splitOpt pre ++ ([mainPat] ++ (splitOpt mainC ++
      ([factPat] ++ (splitOpt fc ++ ([reasonPat] ++ (splitOpt rc ++
      ([datePat] ++ splitOpt po)))))))).drop
      ((splitOpt pre).length + 1 + (splitOpt mainC).length + 1 +
        (splitOpt fc).length + 1 + (splitOpt rc).length + 1) =
      splitOpt po := by
    have h1 : (splitOpt pre ++ [mainPat] ++ splitOpt mainC ++ [factPat] ++
        splitOpt fc ++ [reasonPat] ++ splitOpt rc ++ [datePat] ++
        splitOpt po).drop
        (splitOpt pre ++ [mainPat] ++ splitOpt mainC ++ [factPat] ++
          splitOpt fc ++ [reasonPat] ++ splitOpt rc ++ [datePat]).length =
        splitOpt po := List.drop_left _ _
    have hlen : (splitOpt pre ++ [mainPat] ++ splitOpt mainC ++ [factPat] ++
        splitOpt fc ++ [reasonPat] ++ splitOpt rc ++ [datePat]).length
      = (splitOpt pre).length + 1 + (splitOpt mainC).length + 1 +
        (splitOpt fc).length + 1 + (splitOpt rc).length + 1 := by
      simp
      omega
    rw [hlen] at h1
    rw [show splitOpt pre ++ [mainPat] ++ splitOpt mainC ++ [factPat] ++
        splitOpt fc ++ [reasonPat] ++ splitOpt rc ++ [datePat] ++
        splitOpt po =
      splitOpt pre ++ ([mainPat] ++ (splitOpt mainC ++ ([factPat] ++
        (splitOpt fc ++ ([reasonPat] ++ (splitOpt rc ++ ([datePat] ++
        splitOpt po))))))) from by simp [List.append_assoc]] at h1
    exact h1
  simp only [fourPartResult, hslice_pre, hslice_main, hslice_fact,
    hslice_reason, hdrop_post, strip_joinNl_splitOpt hpre_t,
    strip_joinNl_splitOpt hmain_t, strip_joinNl_splitOpt hfc_t,
    strip_joinNl_splitOpt hrc_t, strip_joinNl_splitOpt hpo_t]

/-- Reconstructing a four-marker structured record with trimmed,
marker-free section fields and parsing the output recovers the record's
sections exactly. -/
theorem reparse_four (r : ParseResult)
    (hp : r.pattern = some special_four_part_pattern)
    (hpre_t : strip r.preInfo = r.preInfo)
    (hmain_t : strip r.main = r.main)
    (hfact_t : strip (r.fact.getD []) = r.fact.getD [])
    (hreason_t : strip (r.reason.getD []) = r.reason.getD [])
    (hpost_t : strip r.postInfo = r.postInfo)
    (hpre_m : NoMarkerLines r.preInfo)
    (hmain_m : NoMarkerLines r.main)
    (hfact_m : NoMarkerLines (r.fact.getD []))
    (hreason_m : NoMarkerLines (r.reason.getD []))
    (hpost_m : NoMarkerLines r.postInfo) :
    parse_judgment (JInput.text (reconstruct_judgment r)) =
      { preInfo := r.preInfo, main := r.main,
        fact := some (r.fact.getD []), reason := some (r.reason.getD []),
        factAndReason := none, postInfo := r.postInfo,
        pattern := some special_four_part_pattern, error := none } := by
  have hrec : reconstruct_judgment r =
      joinNl (optPart r.preInfo ++ [mainPat] ++ optPart r.main ++ [factPat] ++
        optPart (r.fact.getD []) ++ [reasonPat] ++
        optPart (r.reason.getD []) ++ [datePat] ++ optPart r.postInfo) := by
    rw [reconstruct_four_eq r hp, hpre_t, hmain_t, hfact_t, hreason_t, hpost_t]
  have hmem : mainPat ∈ optPart r.preInfo ++ [mainPat] ++ optPart r.main ++
      [factPat] ++ optPart (r.fact.getD []) ++ [reasonPat] ++
      optPart (r.reason.getD []) ++ [datePat] ++ optPart r.postInfo := by
    simp
  have hne : reconstruct_judgment r ≠ [] := by
    rw [hrec]
    exact joinNl_ne_nil hmem (by decide)
  rw [parse_judgment_text_eq hne, hrec]
  have hlines : splitOnNl (joinNl (optPart r.preInfo ++ [mainPat] ++
      optPart r.main ++ [factPat] ++ optPart (r.fact.getD []) ++
      [reasonPat] ++ optPart (r.reason.getD []) ++ [datePat] ++
      optPart r.postInfo)) =
      splitOpt r.preInfo ++ ([mainPat] ++ (splitOpt r.main ++ ([factPat] ++
        (splitOpt (r.fact.getD []) ++ ([reasonPat] ++
        (splitOpt (r.reason.getD []) ++ ([datePat] ++
        splitOpt r.postInfo))))))) := by
    rw [splitOnNl_joinNl _ (List.ne_nil_of_mem hmem)]
    simp [flatten_map_splitOnNl_optPart, split_mainPat, split_factPat,
      split_reasonPat, split_datePat]
  rw [hlines]
  exact parseText_canonical_four _ _ _ _ _ _ hpre_t hmain_t hfact_t hreason_t
    hpost_t hpre_m hmain_m hfact_m hreason_m hpost_m

theorem tryOne_eq_some_of {lines : List (List Char)}
    {d0 m0 x0 : List Char} {dp mp xp : Nat}
    (hd : findPos lines d0 = some dp) (hm : findPos lines m0 = some mp)
    (hx : findPos lines x0 = some xp) (hord : mp < xp ∧ xp < dp) :
    tryOne lines [d0, m0, x0] = some (mp, xp, dp) := by
  simp only [tryOne]
  split
  · rename_i dp2 mp2 xp2 hd2 hm2 hx2
    rw [hd] at hd2
    rw [hm] at hm2
    rw [hx] at hx2
    cases hd2
    cases hm2
    cases hx2
    rw [if_pos hord]
  · rename_i hno
    exact (hno dp mp xp hd hm hx).elim

theorem reconstruct_three_eq (components : ParseResult)
    (p : List (List Char)) (hp : components.pattern = some p)
    (hne4 : p ≠ special_four_part_pattern) (hlen : p.length = 3) :
    reconstruct_judgment components =
      joinNl (optPart (strip components.preInfo) ++ [p.getD 1 []] ++
        optPart (strip components.main) ++ [p.getD 2 []] ++
        optPart (strip (components.factAndReason.getD [])) ++
        [p.getD 0 []] ++ optPart (strip components.postInfo)) := by
  unfold reconstruct_judgment
  split
  · rename_i hnone
    rw [hp] at hnone
    cases hnone
  · rename_i pattern hsome
    rw [hp] at hsome
    injection hsome with e
    subst e
    rw [if_neg (by
      intro hcontra
      rw [List.isEmpty_iff] at hcontra
      rw [hcontra] at hlen
      cases hlen)]
    rw [if_neg hne4, if_pos hlen]

theorem tryPatterns_first {s : List Char} {lines : List (List Char)}
    {ps : List (List (List Char))} {p : List (List Char)} {mp xp dp : Nat}
    (hmem : p ∈ ps)
    (hfail : ∀ q ∈ ps, q ≠ p → tryOne lines q = none)
    (hp : tryOne lines p = some (mp, xp, dp)) :
    tryPatterns s lines ps = threePartResult lines mp xp dp p := by
  induction ps with
  | nil => cases hmem
  | cons q rest ih =>
    by_cases hqp : q = p
    · subst hqp
      exact tryPatterns_cons_some hp
    · rw [tryPatterns_cons_none (hfail q (List.mem_cons_self _ _) hqp)]
      have hmem2 : p ∈ rest := by
        rcases List.mem_cons.mp hmem with h | h
        · exact absurd h.symm hqp
        · exact h
      exact ih hmem2 (fun q2 hq2 => hfail q2 (List.mem_cons_of_mem _ hq2))

/-- Parsing the canonical three-part line layout produced by
reconstruction recovers the four sections exactly and selects the same
template. -/
theorem parseText_canonical_three (s pre mainC frc po x : List Char)
    (hx : x ∈ combinedLabels)
    (hpmem : [datePat, mainPat, x] ∈ supported_patterns)
    (hpre_t : strip pre = pre) (hmain_t : strip mainC = mainC)
    (hfrc_t : strip frc = frc) (hpo_t : strip po = po)
    (hpre_m : NoMarkerLines pre) (hmain_m : NoMarkerLines mainC)
    (hfrc_m : NoMarkerLines frc) (hpo_m : NoMarkerLines po) :
    parseText s (splitOpt pre ++ ([mainPat] ++ (splitOpt mainC ++ ([x] ++
      (splitOpt frc ++ ([datePat] ++ splitOpt po)))))) =
    { preInfo := pre, main := mainC, fact := none, reason := none,
      factAndReason := some frc, postInfo := po,
      pattern := some [datePat, mainPat, x], error := none } := by
  obtain ⟨hx_main, hx_date, hdate_x, hmain_x, hfact_x, hreason_x, hsplit_x,
    hall_x, hne_x⟩ := label_vs_markers x hx
  have hxx : lineMatches x x = true := by
    rw [label_matrix x hx x hx]
    simp
  have hm_pos : findPos (splitOpt pre ++ ([mainPat] ++ (splitOpt mainC ++
      ([x] ++ (splitOpt frc ++ ([datePat] ++ splitOpt po)))))) mainPat =
      some (splitOpt pre).length := by
    rw [findPos_append_none (noMarker_splitOpt hpre_m (by decide)),
      List.singleton_append, findPos_cons_match (by decide)]
    simp
  have hx_pos : findPos (splitOpt pre ++ ([mainPat] ++ (splitOpt mainC ++
      ([x] ++ (splitOpt frc ++ ([datePat] ++ splitOpt po)))))) x =
      some ((splitOpt pre).length + 1 + (splitOpt mainC).length) := by
    rw [findPos_append_none (noMarker_splitOpt hpre_m hall_x),
      List.singleton_append, findPos_cons_nomatch hx_main,
      findPos_append_none (noMarker_splitOpt hmain_m hall_x),
      List.singleton_append, findPos_cons_match hxx]
    simp only [Option.map_some', Option.some.injEq]
    omega
  have hd_pos : findPos (splitOpt pre ++ ([mainPat] ++ (splitOpt mainC ++
      ([x] ++ (splitOpt frc ++ ([datePat] ++ splitOpt po)))))) datePat =
      some ((splitOpt pre).length + 1 + (splitOpt mainC).length + 1 +
        (splitOpt frc).length) := by
    rw [findPos_append_none (noMarker_splitOpt hpre_m (by decide)),
      List.singleton_append, findPos_cons_nomatch (by decide),
      findPos_append_none (noMarker_splitOpt hmain_m (by decide)),
      List.singleton_append, findPos_cons_nomatch hdate_x,
      findPos_append_none (noMarker_splitOpt hfrc_m (by decide)),
      List.singleton_append, findPos_cons_match (by decide)]
    simp only [Option.map_some', Option.some.injEq]
    omega
  have hfall : parseText s (splitOpt pre ++ ([mainPat] ++ (splitOpt mainC ++
      ([x] ++ (splitOpt frc ++ ([datePat] ++ splitOpt po)))))) =
      tryPatterns s (splitOpt pre ++ ([mainPat] ++ (splitOpt mainC ++
        ([x] ++ (splitOpt frc ++ ([datePat] ++ splitOpt po))))))
        supported_patterns := by
    by_cases hxf : x = factPat
    · have hrnone : findPos (splitOpt pre ++ ([mainPat] ++ (splitOpt mainC ++
          ([x] ++ (splitOpt frc ++ ([datePat] ++ splitOpt po))))))
          reasonPat = none := by
        rw [findPos_none_iff]
        intro l hl
        simp only [List.mem_append, List.mem_singleton] at hl
        rcases hl with hl | hl | hl | hl | hl | hl | hl
        · exact noMarker_splitOpt hpre_m (by decide) l hl
        · subst hl; decide
        · exact noMarker_splitOpt hmain_m (by decide) l hl
        · rw [hl, hreason_x, hxf]; decide
        · exact noMarker_splitOpt hfrc_m (by decide) l hl
        · subst hl; decide
        · exact noMarker_splitOpt hpo_m (by decide) l hl
      exact parseText_not_four (fun d1 m1 f1 r1 hd1 hm1 hf1 hr1 => by
        rw [hrnone] at hr1
        cases hr1)
    · have hfnone : findPos (splitOpt pre ++ ([mainPat] ++ (splitOpt mainC ++
          ([x] ++ (splitOpt frc ++ ([datePat] ++ splitOpt po))))))
          factPat = none := by
        rw [findPos_none_iff]
        intro l hl
        simp only [List.mem_append, List.mem_singleton] at hl
        rcases hl with hl | hl | hl | hl | hl | hl | hl
        · exact noMarker_splitOpt hpre_m (by decide) l hl
        · subst hl; decide
        · exact noMarker_splitOpt hmain_m (by decide) l hl
        · rw [hl, hfact_x]; simp [hxf]
        · exact noMarker_splitOpt hfrc_m (by decide) l hl
        · subst hl; decide
        · exact noMarker_splitOpt hpo_m (by decide) l hl
      exact parseText_not_four (fun d1 m1 f1 r1 hd1 hm1 hf1 hr1 => by
        rw [hfnone] at hf1
        cases hf1)
  rw [hfall]
  have htry : tryOne (splitOpt pre ++ ([mainPat] ++ (splitOpt mainC ++
      ([x] ++ (splitOpt frc ++ ([datePat] ++ splitOpt po))))))
      [datePat, mainPat, x] =
      some ((splitOpt pre).length,
        (splitOpt pre).length + 1 + (splitOpt mainC).length,
        (splitOpt pre).length + 1 + (splitOpt mainC).length + 1 +
          (splitOpt frc).length) :=
    tryOne_eq_some_of hd_pos hm_pos hx_pos ⟨by omega, by omega⟩
  have hfail : ∀ q ∈ supported_patterns, q ≠ [datePat, mainPat, x] →
      tryOne (splitOpt pre ++ ([mainPat] ++ (splitOpt mainC ++
        ([x] ++ (splitOpt frc ++ ([datePat] ++ splitOpt po)))))) q = none := by
    intro q hq hqne
    obtain ⟨x2, rfl⟩ := supported_patterns_shape q hq
    have hx2ne : x2 ≠ x := by
      intro h
      rw [h] at hqne
      exact hqne rfl
    have hx2mem : x2 ∈ combinedLabels := by
      rw [show x2 = ([datePat, mainPat, x2]).getD 2 [] from rfl]
      exact List.mem_map_of_mem (fun q => q.getD 2 []) hq
    obtain ⟨hx2_main, hx2_date, _, _, _, _, _, hall_x2, _⟩ :=
      label_vs_markers x2 hx2mem
    apply tryOne_eq_none_of_missing
    rw [findPos_none_iff]
    intro l hl
    simp only [List.mem_append, List.mem_singleton] at hl
    rcases hl with hl | hl | hl | hl | hl | hl | hl
    · exact noMarker_splitOpt hpre_m hall_x2 l hl
    · subst hl; exact hx2_main
    · exact noMarker_splitOpt hmain_m hall_x2 l hl
    · rw [hl, label_matrix x2 hx2mem x hx]
      simp [hx2ne]
    · exact noMarker_splitOpt hfrc_m hall_x2 l hl
    · subst hl; exact hx2_date
    · exact noMarker_splitOpt hpo_m hall_x2 l hl
  rw [tryPatterns_first hpmem hfail htry]
  have hslice_main : pySlice (splitOpt pre ++ ([mainPat] ++ (splitOpt mainC ++
      ([x] ++ (splitOpt frc ++ ([datePat] ++ splitOpt po))))))
      ((splitOpt pre).length + 1)
      ((splitOpt pre).length + 1 + (splitOpt mainC).length) =
      splitOpt mainC := by
    have h1 := pySlice_infix (splitOpt pre ++ [mainPat]) (splitOpt mainC)
      ([x] ++ (splitOpt frc ++ ([datePat] ++ splitOpt po)))
    rw [show (splitOpt pre ++ [mainPat]).length = (splitOpt pre).length + 1
      from by simp] at h1
    rw [show splitOpt pre ++ [mainPat] ++ splitOpt mainC ++
        ([x] ++ (splitOpt frc ++ ([datePat] ++ splitOpt po))) =
      splitOpt pre ++ ([mainPat] ++ (splitOpt mainC ++ ([x] ++
        (splitOpt frc ++ ([datePat] ++ splitOpt po))))) from by
        simp [List.append_assoc]] at h1
    exact h1
  have hslice_frc : pySlice (splitOpt pre ++ ([mainPat] ++ (splitOpt mainC ++
      ([x] ++ (splitOpt frc ++ ([datePat] ++ splitOpt po))))))
      ((splitOpt pre).length + 1 + (splitOpt mainC).length + 1)
      ((splitOpt pre).length + 1 + (splitOpt mainC).length + 1 +
        (splitOpt frc).length) = splitOpt frc := by
    have h1 := pySlice_infix (splitOpt pre ++ [mainPat] ++ splitOpt mainC ++
      [x]) (splitOpt frc) ([datePat] ++ splitOpt po)
    have hlen : (splitOpt pre ++ [mainPat] ++ splitOpt mainC ++ [x]).length =
        (splitOpt pre).length + 1 + (splitOpt mainC).length + 1 := by
      simp
      omega
    rw [hlen] at h1
    rw [show splitOpt pre ++ [mainPat] ++ splitOpt mainC ++ [x] ++
        splitOpt frc ++ ([datePat] ++ splitOpt po) =
      splitOpt pre ++ ([mainPat] ++ (splitOpt mainC ++ ([x] ++
        (splitOpt frc ++ ([datePat] ++ splitOpt po))))) from by
        simp [List.append_assoc]] at h1
    exact h1
  have hslice_pre : pySlice (splitOpt pre ++ ([mainPat] ++ (splitOpt mainC ++
      ([x] ++ (splitOpt frc ++ ([datePat] ++ splitOpt po)))))) 0
      (splitOpt pre).length = splitOpt pre := by
    rw [pySlice_zero]
    exact List.take_left _ _
  have hdrop_post : (splitOpt pre ++ ([mainPat] ++ (splitOpt mainC ++
      ([x] ++ (splitOpt frc ++ ([datePat] ++ splitOpt po)))))).drop
      ((splitOpt pre).length + 1 + (splitOpt mainC).length + 1 +
        (splitOpt frc).length + 1) = splitOpt po := by
    have h1 : (splitOpt pre ++ [mainPat] ++ splitOpt mainC ++ [x] ++
        splitOpt frc ++ [datePat] ++ splitOpt po).drop
        (splitOpt pre ++ [mainPat] ++ splitOpt mainC ++ [x] ++
          splitOpt frc ++ [datePat]).length = splitOpt po :=
      List.drop_left _ _
    have hlen : (splitOpt pre ++ [mainPat] ++ splitOpt mainC ++ [x] ++
        splitOpt frc ++ [datePat]).length =
        (splitOpt pre).length + 1 + (splitOpt mainC).length + 1 +
          (splitOpt frc).length + 1 := by
      simp
      omega
    rw [hlen] at h1
    rw [show splitOpt pre ++ [mainPat] ++ splitOpt mainC ++ [x] ++
        splitOpt frc ++ [datePat] ++ splitOpt po =
      splitOpt pre ++ ([mainPat] ++ (splitOpt mainC ++ ([x] ++
        (splitOpt frc ++ ([datePat] ++ splitOpt po))))) from by
        simp [List.append_assoc]] at h1
    exact h1
  simp only [threePartResult, hslice_pre, hslice_main, hslice_frc, hdrop_post,
    strip_joinNl_splitOpt hpre_t, strip_joinNl_splitOpt hmain_t,
    strip_joinNl_splitOpt hfrc_t, strip_joinNl_splitOpt hpo_t]

/-- Reconstructing a three-marker structured record with trimmed,
marker-free section fields and parsing the output recovers the record's
sections and template exactly. -/
theorem reparse_three (r : ParseResult) (x : List Char)
    (hx : x ∈ combinedLabels)
    (hpmem : [datePat, mainPat, x] ∈ supported_patterns)
    (hp : r.pattern = some [datePat, mainPat, x])
    (hpre_t : strip r.preInfo = r.preInfo)
    (hmain_t : strip r.main = r.main)
    (hfrc_t : strip (r.factAndReason.getD []) = r.factAndReason.getD [])
    (hpost_t : strip r.postInfo = r.postInfo)
    (hpre_m : NoMarkerLines r.preInfo)
    (hmain_m : NoMarkerLines r.main)
    (hfrc_m : NoMarkerLines (r.factAndReason.getD []))
    (hpost_m : NoMarkerLines r.postInfo) :
    parse_judgment (JInput.text (reconstruct_judgment r)) =
      { preInfo := r.preInfo, main := r.main, fact := none, reason := none,
        factAndReason := some (r.factAndReason.getD []),
        postInfo := r.postInfo, pattern := some [datePat, mainPat, x],
        error := none } := by
  obtain ⟨_, _, _, _, _, _, hsplit_x, _, hne_x⟩ := label_vs_markers x hx
  have hne4 : ([datePat, mainPat, x] : List (List Char)) ≠
      special_four_part_pattern := by
    intro h
    have hlen := congrArg List.length h
    simp [special_four_part_pattern] at hlen
  have hrec : reconstruct_judgment r =
      joinNl (optPart r.preInfo ++ [mainPat] ++ optPart r.main ++ [x] ++
        optPart (r.factAndReason.getD []) ++ [datePat] ++
        optPart r.postInfo) := by
    rw [reconstruct_three_eq r _ hp hne4 rfl]
    rw [show (([datePat, mainPat, x] : List (List Char))).getD 1 [] = mainPat
        from rfl,
      show (([datePat, mainPat, x] : List (List Char))).getD 2 [] = x
        from rfl,
      show (([datePat, mainPat, x] : List (List Char))).getD 0 [] = datePat
        from rfl,
      hpre_t, hmain_t, hfrc_t, hpost_t]
  have hmem : mainPat ∈ optPart r.preInfo ++ [mainPat] ++ optPart r.main ++
      [x] ++ optPart (r.factAndReason.getD []) ++ [datePat] ++
      optPart r.postInfo := by
    simp
  have hne : reconstruct_judgment r ≠ [] := by
    rw [hrec]
    exact joinNl_ne_nil hmem (by decide)
  rw [parse_judgment_text_eq hne, hrec]
  have hlines : splitOnNl (joinNl (optPart r.preInfo ++ [mainPat] ++
      optPart r.main ++ [x] ++ optPart (r.factAndReason.getD []) ++
      [datePat] ++ optPart r.postInfo)) =
      splitOpt r.preInfo ++ ([mainPat] ++ (splitOpt r.main ++ ([x] ++
        (splitOpt (r.factAndReason.getD []) ++ ([datePat] ++
        splitOpt r.postInfo))))) := by
    rw [splitOnNl_joinNl _ (List.ne_nil_of_mem hmem)]
    simp [flatten_map_splitOnNl_optPart, split_mainPat, split_datePat,
      hsplit_x]
  rw [hlines]
  exact parseText_canonical_three _ _ _ _ _ _ hx hpmem hpre_t hmain_t hfrc_t
    hpost_t hpre_m hmain_m hfrc_m hpost_m

/-- Claim C9: for a structured record whose pattern is one of the
supported templates and whose section fields are already-trimmed strings
none of whose lines matches any template marker's rule, parsing the
reconstructed text selects the same template and returns identical
pre-information, main, fact/reason (or fact-and-reason) and
post-information fields. -/
theorem reparse_stability (r : ParseResult) (p : List (List Char))
    (hp : r.pattern = some p)
    (hfam : p = special_four_part_pattern ∨ p ∈ supported_patterns)
    (hpre_t : strip r.preInfo = r.preInfo)
    (hmain_t : strip r.main = r.main)
    (hfact_t : strip (r.fact.getD []) = r.fact.getD [])
    (hreason_t : strip (r.reason.getD []) = r.reason.getD [])
    (hfrc_t : strip (r.factAndReason.getD []) = r.factAndReason.getD [])
    (hpost_t : strip r.postInfo = r.postInfo)
    (hpre_m : NoMarkerLines r.preInfo)
    (hmain_m : NoMarkerLines r.main)
    (hfact_m : NoMarkerLines (r.fact.getD []))
    (hreason_m : NoMarkerLines (r.reason.getD []))
    (hfrc_m : NoMarkerLines (r.factAndReason.getD []))
    (hpost_m : NoMarkerLines r.postInfo) :
    (parse_judgment (JInput.text (reconstruct_judgment r))).pattern = some p ∧
    (parse_judgment (JInput.text (reconstruct_judgment r))).preInfo =
      r.preInfo ∧
    (parse_judgment (JInput.text (reconstruct_judgment r))).main = r.main ∧
    (parse_judgment (JInput.text (reconstruct_judgment r))).postInfo =
      r.postInfo ∧
    (p = special_four_part_pattern →
      (parse_judgment (JInput.text (reconstruct_judgment r))).fact =
        some (r.fact.getD []) ∧
      (parse_judgment (JInput.text (reconstruct_judgment r))).reason =
        some (r.reason.getD [])) ∧
    (p ∈ supported_patterns →
      (parse_judgment (JInput.text (reconstruct_judgment r))).factAndReason =
        some (r.factAndReason.getD [])) := by
  rcases hfam with hfam | hfam
  · subst hfam
    rw [reparse_four r hp hpre_t hmain_t hfact_t hreason_t hpost_t hpre_m
      hmain_m hfact_m hreason_m hpost_m]
    refine ⟨rfl, rfl, rfl, rfl, fun _ => ⟨rfl, rfl⟩, ?_⟩
    intro hcontra
    exact absurd hcontra (by decide)
  · obtain ⟨x, rfl⟩ := supported_patterns_shape p hfam
    have hx : x ∈ combinedLabels := by
      rw [show x = (([datePat, mainPat, x] : List (List Char))).getD 2 []
        from rfl]
      exact List.mem_map_of_mem (fun q => q.getD 2 []) hfam
    rw [reparse_three r x hx hfam hp hpre_t hmain_t hfrc_t hpost_t hpre_m
      hmain_m hfrc_m hpost_m]
    refine ⟨rfl, rfl, rfl, rfl, ?_, fun _ => rfl⟩
    intro hcontra
    have hlen := congrArg List.length hcontra
    simp [special_four_part_pattern] at hlen

/-- Witness for C9: a fully populated four-marker record with one-line
marker-free sections round-trips through reconstruction and reparsing. -/
theorem reparse_stability_witness :
    (parse_judgment (JInput.text (reconstruct_judgment
      { preInfo := "壹".data, main := "貳".data, fact := some "參".data,
        reason := some "肆".data, factAndReason := none,
        postInfo := "伍".data, pattern := some special_four_part_pattern,
        error := none }))).pattern = some special_four_part_pattern ∧
    (parse_judgment (JInput.text (reconstruct_judgment
      { preInfo := "壹".data, main := "貳".data, fact := some "參".data,
        reason := some "肆".data, factAndReason := none,
        postInfo := "伍".data, pattern := some special_four_part_pattern,
        error := none }))).preInfo = "壹".data ∧
    (parse_judgment (JInput.text (reconstruct_judgment
      { preInfo := "壹".data, main := "貳".data, fact := some "參".data,
        reason := some "肆".data, factAndReason := none,
        postInfo := "伍".data, pattern := some special_four_part_pattern,
        error := none }))).main = "貳".data ∧
    (parse_judgment (JInput.text (reconstruct_judgment
      { preInfo := "壹".data, main := "貳".data, fact := some "參".data,
        reason := some "肆".data, factAndReason := none,
        postInfo := "伍".data, pattern := some special_four_part_pattern,
        error := none }))).postInfo = "伍".data ∧
    (special_four_part_pattern = special_four_part_pattern →
      (parse_judgment (JInput.text (reconstruct_judgment
        { preInfo := "壹".data, main := "貳".data, fact := some "參".data,
          reason := some "肆".data, factAndReason := none,
          postInfo := "伍".data, pattern := some special_four_part_pattern,
          error := none }))).fact = some (Option.getD (some "參".data) []) ∧
      (parse_judgment (JInput.text (reconstruct_judgment
        { preInfo := "壹".data, main := "貳".data, fact := some "參".data,
          reason := some "肆".data, factAndReason := none,
          postInfo := "伍".data, pattern := some special_four_part_pattern,
          error := none }))).reason = some (Option.getD (some "肆".data) [])) ∧
    (special_four_part_pattern ∈ supported_patterns →
      (parse_judgment (JInput.text (reconstruct_judgment
        { preInfo := "壹".data, main := "貳".data, fact := some "參".data,
          reason := some "肆".data, factAndReason := none,
          postInfo := "伍".data, pattern := some special_four_part_pattern,
          error := none }))).factAndReason =
        some (Option.getD (none : Option (List Char)) [])) :=
  reparse_stability
    { preInfo := "壹".data, main := "貳".data, fact := some "參".data,
      reason := some "肆".data, factAndReason := none,
      postInfo := "伍".data, pattern := some special_four_part_pattern,
      error := none } special_four_part_pattern rfl (Or.inl rfl)
    (by decide) (by decide) (by decide) (by decide) (by decide) (by decide)
    (by decide) (by decide) (by decide) (by decide) (by decide) (by decide)
